import Mathlib

/-!
# Verification of the transaction-analysis pipeline

A shallow embedding, in Lean 4, of the core ingestion–normalization–
classification–insights pipeline of the repository (files `src/config.py`,
`src/validator.py`, `src/models.py`, `src/heuristic_fallback.py`,
`src/classifier.py`, `src/insights_generator.py`, `src/main_handler.py`).

Modelling conventions:
* Python floats are modelled as exact rationals (`ℚ`); `round(x, n)` is
  modelled as exact decimal rounding half-to-even (the tie-breaking rule
  Python's `round` uses).  Binary floating-point rounding error and the
  non-finite values `nan`/`inf` are outside the model.
* Python strings are Lean `String`s; character-level operations work on
  `String.data : List Char`.
* Python exceptions become an explicit error type `PyExc`; `try/except`
  becomes the `Except` monad.  The distinct exception classes that matter
  to the control flow of `main_handler.process_transactions` are kept
  distinct: the custom `validator.ValidationError` versus pydantic's
  `ValidationError` (raised when a pydantic model's field validator raises
  `ValueError`) versus other exceptions.
* External collaborators with no source in the repository (the `dateutil`
  permissive parser, the stdlib `csv` reader, stdlib `float()` parsing of
  strings, the wall clock, and the Gemini network service) are supplied as
  an explicit parameter record `Extern`; every theorem quantifies over it.
* Python's `str.lower`/`str.title` and the regex classes `\w`/`\s` are
  modelled on the character repertoire the repository's patterns and data
  use: ASCII plus the accented letters listed explicitly in
  `validator.normalize_description`'s regex
  (`áàâãéèêíïóôõöúçñ` and their upper-case forms).  `\s` is modelled as
  ASCII whitespace.
-/

/-! ## Character helpers -/

/-- The accented letters listed in `validator.py` line 124, paired with
their upper-case forms (the same regex class lists both cases). -/
def accentPairs : List (Char × Char) :=
  [('á', 'Á'), ('à', 'À'), ('â', 'Â'), ('ã', 'Ã'), ('é', 'É'), ('è', 'È'),
   ('ê', 'Ê'), ('í', 'Í'), ('ï', 'Ï'), ('ó', 'Ó'), ('ô', 'Ô'), ('õ', 'Õ'),
   ('ö', 'Ö'), ('ú', 'Ú'), ('ç', 'Ç'), ('ñ', 'Ñ')]

/-- Python `\s` (ASCII range): space, tab, newline, carriage return,
vertical tab, form feed. -/
def isPySpace (c : Char) : Bool :=
  c = ' ' || c = '\t' || c = '\n' || c = '\r' || c = '\x0b' || c = '\x0c'

def isAsciiDigit (c : Char) : Bool :=
  48 ≤ c.toNat && c.toNat ≤ 57

def isAsciiLower (c : Char) : Bool :=
  97 ≤ c.toNat && c.toNat ≤ 122

def isAsciiUpper (c : Char) : Bool :=
  65 ≤ c.toNat && c.toNat ≤ 90

def isAccent (c : Char) : Bool :=
  accentPairs.any fun p => p.1 = c || p.2 = c

/-- A cased character of the modelled repertoire (Python: a character for
which `str.title`'s "cased" test holds). -/
def isCased (c : Char) : Bool :=
  isAsciiLower c || isAsciiUpper c || isAccent c

/-- Python regex `\w` over the modelled repertoire: letters, digits,
underscore. -/
def isWordChar (c : Char) : Bool :=
  isCased c || isAsciiDigit c || c = '_'

/-- The character class kept by `normalize_description`'s first regex:
the complement of `[^\w\s\-.,áàâãéèêíïóôõöúçñÁÀÂÃÉÈÊÍÏÓÔÕÖÚÇÑ]`
(the accented letters are already inside the `\w` model). -/
def keepChar (c : Char) : Bool :=
  isWordChar c || isPySpace c || c = '-' || c = '.' || c = ','

/-- ASCII upper-casing (the `a`–`z` branch of Python's case mapping). -/
def asciiUp (c : Char) : Char :=
  if 97 ≤ c.toNat && c.toNat ≤ 122 then Char.ofNat (c.toNat - 32) else c

/-- ASCII lower-casing (the `A`–`Z` branch of Python's case mapping). -/
def asciiDown (c : Char) : Char :=
  if 65 ≤ c.toNat && c.toNat ≤ 90 then Char.ofNat (c.toNat + 32) else c

/-- Python `str.upper` on one character of the modelled repertoire. -/
def pyUpperChar (c : Char) : Char :=
  match accentPairs.find? (fun p => p.1 = c) with
  | some p => p.2
  | none => asciiUp c

/-- Python `str.lower` on one character of the modelled repertoire. -/
def pyLowerChar (c : Char) : Char :=
  match accentPairs.find? (fun p => p.2 = c) with
  | some p => p.1
  | none => asciiDown c

/-- Python `str.lower` on a whole string. -/
def pyLower (s : String) : String :=
  String.mk (s.data.map pyLowerChar)

/-- The decimal digit character for `n ≤ 9`. -/
def digitChar (n : Nat) : Char := Char.ofNat (48 + n)

/-- The value of a decimal digit character. -/
def charToDigit (c : Char) : Nat := c.toNat - 48

/-! ## Python `round` (half-to-even) on rationals -/

/-- Round a rational to the nearest integer, ties to even — the rounding
rule of Python's builtin `round`. -/
def halfEven (q : ℚ) : ℤ :=
  let f : ℤ := ⌊q⌋
  let r : ℚ := q - f
  if r < 1/2 then f
  else if 1/2 < r then f + 1
  else if f % 2 = 0 then f else f + 1

/-- Python `round(q, d)` modelled exactly on rationals. -/
def pyRoundTo (d : Nat) (q : ℚ) : ℚ :=
  ((halfEven (q * (10 : ℚ) ^ d) : ℤ) : ℚ) / (10 : ℚ) ^ d

/-! ## Configuration constants (`src/config.py`) -/

def MAX_TRANSACTIONS_PER_BATCH : Nat := 200

def MAX_DESCRIPTION_LENGTH : Nat := 100

def VALID_CATEGORIES : List String :=
  ["alimentacao", "transporte", "moradia", "lazer", "saude", "compras",
   "contas", "transferencia", "renda", "educacao", "outros"]

def SUBCATEGORIES : List (String × List String) :=
  [("alimentacao", ["restaurante", "supermercado", "padaria", "lanchonete", "delivery", "bar"]),
   ("transporte", ["combustivel", "uber", "taxi", "onibus", "metro", "pedagio", "estacionamento"]),
   ("moradia", ["aluguel", "condominio", "iptu", "manutencao"]),
   ("lazer", ["cinema", "streaming", "viagem", "evento", "restaurante_lazer"]),
   ("saude", ["farmacia", "consulta", "plano_saude", "exame", "dentista"]),
   ("compras", ["roupas", "eletronicos", "casa", "presentes", "diversos"]),
   ("contas", ["luz", "agua", "internet", "telefone", "gas", "tv"]),
   ("transferencia", ["pix", "ted", "doc"]),
   ("renda", ["salario", "freelance", "investimento", "bonus", "restituicao"]),
   ("educacao", ["curso", "livro", "mensalidade", "material"]),
   ("outros", [])]

def HEURISTIC_KEYWORDS : List (String × List String) :=
  [("alimentacao",
    ["padaria", "supermercado", "mercado", "restaurante", "lanchonete", "pizzaria",
     "hamburgueria", "ifood", "rappi", "uber eats", "bar", "cafeteria", "acai",
     "sorveteria", "pao", "feira", "hortifruti"]),
   ("transporte",
    ["uber", "99", "taxi", "gas", "gasolina", "etanol", "combustivel", "posto",
     "shell", "ipiranga", "onibus", "metro", "estacionamento", "pedagio",
     "mecanica", "oficina"]),
   ("moradia",
    ["aluguel", "condominio", "iptu", "imovel", "casa", "apt", "apartamento"]),
   ("lazer",
    ["cinema", "spotify", "netflix", "amazon prime", "disney", "hbo", "ingresso",
     "viagem", "hotel", "pousada", "airbnb", "turismo", "parque"]),
   ("saude",
    ["farmacia", "drogaria", "droga", "consulta", "medic", "hospital", "clinica",
     "plano saude", "unimed", "amil", "bradesco saude", "laboratorio", "exame",
     "dentista", "odonto"]),
   ("compras",
    ["magazine", "loja", "mercado livre", "amazon", "shopee", "aliexpress",
     "c&a", "renner", "zara", "americanas", "submarino", "casas bahia",
     "extra", "eletro"]),
   ("contas",
    ["luz", "energia", "cemig", "cpfl", "enel", "agua", "sabesp", "cedae",
     "internet", "vivo", "claro", "tim", "oi", "telefone", "celular", "gas",
     "tv cabo", "net", "sky"]),
   ("transferencia",
    ["pix", "ted", "doc", "transf", "pagamento", "envio", "transfer"]),
   ("renda",
    ["salario", "pagamento", "deposito", "credito", "recebimento", "freelance",
     "rendimento", "dividendo", "bonus", "restituicao", "ir"]),
   ("educacao",
    ["escola", "faculdade", "universidade", "curso", "livraria", "livro",
     "estacio", "anhanguera", "unip", "udemy", "coursera", "alura", "material escolar"])]

def MIN_CONFIDENCE_THRESHOLD : ℚ := 6/10

def HEURISTIC_CONFIDENCE_LO : ℚ := 3/10

def HEURISTIC_CONFIDENCE_HI : ℚ := 6/10

def TREND_THRESHOLD_UP : ℚ := 5

def TREND_THRESHOLD_DOWN : ℚ := -5

/-! ## Substring test (Python's `in` on strings) -/

/-- `listStarts needle hay`: `needle` occurs at the beginning of `hay`. -/
def listStarts : List Char → List Char → Bool
  | [], _ => true
  | _ :: _, [] => false
  | n :: ns, h :: hs => n = h && listStarts ns hs

/-- `listHasSub needle hay`: `needle` occurs somewhere inside `hay`
(Python's `needle in hay`; the empty needle always matches). -/
def listHasSub (needle : List Char) : List Char → Bool
  | [] => listStarts needle []
  | h :: hs => listStarts needle (h :: hs) || listHasSub needle hs

/-- Python `needle in hay` on strings. -/
def strIn (needle hay : String) : Bool := listHasSub needle.data hay.data

/-! ## Calendar dates (`datetime.date`) -/

structure PyDate where
  year : Nat
  month : Nat
  day : Nat
deriving DecidableEq

def isLeapYear (y : Nat) : Bool :=
  y % 4 = 0 && (y % 100 ≠ 0 || y % 400 = 0)

def daysInMonth (y m : Nat) : Nat :=
  if m = 2 then (if isLeapYear y then 29 else 28)
  else if m = 4 || m = 6 || m = 9 || m = 11 then 30
  else 31

/-- The range checks performed by the `datetime.date` constructor
(`MINYEAR = 1`, `MAXYEAR = 9999`). -/
def validDate (d : PyDate) : Bool :=
  1 ≤ d.year && d.year ≤ 9999 && 1 ≤ d.month && d.month ≤ 12 &&
  1 ≤ d.day && d.day ≤ daysInMonth d.year d.month

def pad2 (n : Nat) : List Char := [digitChar (n / 10 % 10), digitChar (n % 10)]

def pad4 (n : Nat) : List Char :=
  [digitChar (n / 1000 % 10), digitChar (n / 100 % 10),
   digitChar (n / 10 % 10), digitChar (n % 10)]

/-- `date.isoformat()`: `YYYY-MM-DD`. -/
def isoChars (d : PyDate) : List Char :=
  pad4 d.year ++ '-' :: (pad2 d.month ++ '-' :: pad2 d.day)

def isoString (d : PyDate) : String := String.mk (isoChars d)

/-! ## `strptime` for the five formats of `config.DATE_FORMATS`

CPython's `_strptime` matches `%Y` as exactly four digits, `%m` as
`1[0-2]|0[1-9]|[1-9]` and `%d` as `3[01]|[12]\d|0[1-9]|[1-9]` (one or two
digits, value in range, no lone zero), requires the whole string to match,
and then validates the calendar date through the `datetime` constructor. -/

/-- Value of a digit pair that may be one or two characters long, together
with its digit test: returns the value of `%m`/`%d`-style fields. -/
def twoDigitVal (c1 c2 : Char) : Option Nat :=
  if isAsciiDigit c1 && isAsciiDigit c2 then
    some (charToDigit c1 * 10 + charToDigit c2)
  else none

def oneDigitVal (c : Char) : Option Nat :=
  if isAsciiDigit c then some (charToDigit c) else none

def fourDigitVal (c1 c2 c3 c4 : Char) : Option Nat :=
  if isAsciiDigit c1 && isAsciiDigit c2 && isAsciiDigit c3 && isAsciiDigit c4 then
    some (charToDigit c1 * 1000 + charToDigit c2 * 100 +
          charToDigit c3 * 10 + charToDigit c4)
  else none

def mkValidDate (y m d : Nat) : Option PyDate :=
  if 1 ≤ m && m ≤ 12 && 1 ≤ d && d ≤ 31 then
    let dt : PyDate := ⟨y, m, d⟩
    if validDate dt then some dt else none
  else none

/-- Parse the `md` part (`%m sep %d`-style tail) of a format: one or two
digits, the separator, one or two digits, end of string. -/
def parseMDTail (sep : Char) : List Char → Option (Nat × Nat)
  | [m1, s, d1] =>
    if s = sep then do
      let m ← oneDigitVal m1
      let d ← oneDigitVal d1
      pure (m, d)
    else none
  | [m1, s, d1, d2] =>
    if s = sep then do
      let m ← oneDigitVal m1
      let d ← twoDigitVal d1 d2
      pure (m, d)
    else if d1 = sep then do
      let m ← twoDigitVal m1 s
      let d ← oneDigitVal d2
      pure (m, d)
    else none
  | [m1, m2, s, d1, d2] =>
    if s = sep then do
      let m ← twoDigitVal m1 m2
      let d ← twoDigitVal d1 d2
      pure (m, d)
    else none
  | _ => none

/-- `strptime` with format `%Y sep %m sep %d`. -/
def parseYMD (sep : Char) (l : List Char) : Option PyDate :=
  match l with
  | y1 :: y2 :: y3 :: y4 :: s :: rest =>
    if s = sep then do
      let y ← fourDigitVal y1 y2 y3 y4
      let (m, d) ← parseMDTail sep rest
      mkValidDate y m d
    else none
  | _ => none

/-- `strptime` with format `%d sep %m sep %Y`: one or two digits, sep, one
or two digits, sep, exactly four digits, end of string. -/
def parseDMY (sep : Char) (l : List Char) : Option PyDate :=
  match l with
  | [d1, s1, m1, s2, y1, y2, y3, y4] =>
    if s1 = sep && s2 = sep then do
      let d ← oneDigitVal d1
      let m ← oneDigitVal m1
      let y ← fourDigitVal y1 y2 y3 y4
      mkValidDate y m d
    else none
  | [d1, s1, m1, m2, s2, y1, y2, y3, y4] =>
    if s1 = sep && s2 = sep then do
      let d ← oneDigitVal d1
      let m ← twoDigitVal m1 m2
      let y ← fourDigitVal y1 y2 y3 y4
      mkValidDate y m d
    else if m1 = sep && s2 = sep then do
      let d ← twoDigitVal d1 s1
      let m ← oneDigitVal m2
      let y ← fourDigitVal y1 y2 y3 y4
      mkValidDate y m d
    else none
  | [d1, d2, s1, m1, m2, s2, y1, y2, y3, y4] =>
    if s1 = sep && s2 = sep then do
      let d ← twoDigitVal d1 d2
      let m ← twoDigitVal m1 m2
      let y ← fourDigitVal y1 y2 y3 y4
      mkValidDate y m d
    else none
  | _ => none

/-! ## The regex search on the `raw` field

`normalize_date` falls back to a search for the pattern
"one or two digits, slash-or-dash, one or two digits, slash-or-dash,
two to four digits" in `raw`: leftmost match, each quantifier greedy with
backtracking (`re.search` semantics). -/

/-- First `some` produced by `f` over `xs` (backtracking alternatives in
order). -/
def listFirstSome {α β : Type} (xs : List α) (f : α → Option β) : Option β :=
  match xs with
  | [] => none
  | x :: t => (f x).orElse fun _ => listFirstSome t f

/-- All ways to match between `lo` and `hi` digits at the front of `l`,
longest first (greedy order). Each entry is (matched digits, rest). -/
def digitsChoices (lo hi : Nat) (l : List Char) : List (List Char × List Char) :=
  (List.range (hi + 1 - lo)).filterMap fun i =>
    let k := hi - i
    let t := l.take k
    if t.length = k && t.all isAsciiDigit then some (t, l.drop k) else none

/-- Match the slash-or-dash separator class at the front. -/
def sepChoice (l : List Char) : Option (Char × List Char) :=
  match l with
  | c :: t => if c = '/' || c = '-' then some (c, t) else none
  | [] => none

/-- Try the whole date pattern anchored at the front of `l`. -/
def dateAnchorMatch (l : List Char) : Option (List Char) :=
  listFirstSome (digitsChoices 1 2 l) fun ar =>
    (sepChoice ar.2).bind fun s1r =>
      listFirstSome (digitsChoices 1 2 s1r.2) fun br =>
        (sepChoice br.2).bind fun s2r =>
          listFirstSome (digitsChoices 2 4 s2r.2) fun cr =>
            some (ar.1 ++ s1r.1 :: (br.1 ++ s2r.1 :: cr.1))

/-- `re.search` for the date pattern: leftmost anchored match. -/
def reSearchDate : List Char → Option (List Char)
  | [] => none
  | c :: t => (dateAnchorMatch (c :: t)).orElse fun _ => reSearchDate t

/-! ## External collaborators (`Extern`)

Everything the core calls that has no source in the repository: the
`dateutil` permissive parser, the stdlib `csv.DictReader`, stdlib
`float()` on strings, the wall clock, Gemini availability (the API key
check in `GeminiClient.__init__`) and the Gemini network responses.
Theorems quantify over all of these. -/

structure Classification where
  category : String
  subcategory : Option String
  confidence : ℚ
  explanation : Option String
deriving DecidableEq

/-- One recommendation object inside a Gemini `generate_insights` reply
(keys `id` / `text` / `impact_estimate_pct`, each possibly missing). -/
structure GemRec where
  rid : Option String
  text : Option String
  impact : Option ℚ
deriving DecidableEq

/-- A parsed Gemini `generate_insights` reply: the `recommendations` key
may be missing. -/
structure GemInsights where
  recommendations : Option (List GemRec)
deriving DecidableEq

/-- A `csv.DictReader` view of a string: optional header field list and
the rows as key/value lists (a value is `none` when the row is shorter
than the header, mirroring `restval=None`). `Except.error` is `csv.Error`. -/
structure Extern where
  dateutil : String → Option PyDate
  csvRead : String → Except String (Option (List String) × List (List (String × Option String)))
  pyFloat : String → Option ℚ
  today : PyDate
  nowIso : String
  geminiAvail : Bool
  aiClassify : Nat → Option Classification
  aiInsights : Option GemInsights

/-! ## `DataValidator.normalize_date` -/

def pyStripChars (l : List Char) : List Char :=
  ((l.dropWhile isPySpace).reverse.dropWhile isPySpace).reverse

def pyStrip (s : String) : String := String.mk (pyStripChars s.data)

/-- The `for fmt in DATE_FORMATS` loop followed by the `dateutil` attempt:
formats `%Y-%m-%d`, `%d/%m/%Y`, `%d-%m-%Y`, `%Y/%m/%d`, `%d.%m.%Y` in
order on the stripped string, then `date_parser.parse(date_str,
dayfirst=True)` on the original string. -/
def normalizeDateCore (E : Extern) (s : String) : Option String :=
  let t := (pyStrip s).data
  match (parseYMD '-' t).orElse (fun _ => parseDMY '/' t) |>.orElse (fun _ => parseDMY '-' t)
        |>.orElse (fun _ => parseYMD '/' t) |>.orElse (fun _ => parseDMY '.' t) with
  | some d => some (isoString d)
  | none => (E.dateutil s).map isoString

/-- `DataValidator.normalize_date`: formats, permissive parser, then a
date-shaped substring of `raw` re-parsed the same way (the recursive call
passes `raw=None`, so it is exactly `normalizeDateCore`). `if raw:` is
false for `None` and for the empty string. -/
def normalize_date (E : Extern) (s : String) (raw : Option String) : Option String :=
  (normalizeDateCore E s).orElse fun _ =>
    raw.bind fun r =>
      if r.isEmpty then none
      else (reSearchDate r.data).bind fun m => normalizeDateCore E (String.mk m)

/-! ## `DataValidator.normalize_description` -/

/-- `re.sub(r'\s+', ' ', s)`: replace each maximal whitespace run by a
single space. -/
def collapseWs : List Char → List Char
  | [] => []
  | [c] => if isPySpace c then [' '] else [c]
  | c1 :: c2 :: rest =>
    if isPySpace c1 && isPySpace c2 then collapseWs (c2 :: rest)
    else (if isPySpace c1 then ' ' else c1) :: collapseWs (c2 :: rest)

/-- `re.sub(r'\s+', ' ', s).strip()`. -/
def collapseStrip (l : List Char) : List Char := pyStripChars (collapseWs l)

/-- `re.sub(r'\s+\d{5,}$', '', s)`: drop a trailing run of five or more
digits together with the whitespace run just before it (the only possible
match of that anchored pattern). -/
def stripTrailingCode (l : List Char) : List Char :=
  let r := l.reverse
  let ds := r.takeWhile isAsciiDigit
  if 5 ≤ ds.length then
    let r2 := r.drop ds.length
    let ws := r2.takeWhile isPySpace
    if ws.length = 0 then l else (r2.drop ws.length).reverse
  else l

/-- One step of `str.title`: upper-case a cased character after an
uncased one, lower-case a cased character after a cased one. -/
def titleMap (prevCased : Bool) (c : Char) : Char :=
  if isCased c then (if prevCased then pyLowerChar c else pyUpperChar c) else c

def pyTitleGo : Bool → List Char → List Char
  | _, [] => []
  | prev, c :: rest => titleMap prev c :: pyTitleGo (isCased c) rest

/-- Python `str.title()` over the modelled repertoire. -/
def pyTitle (l : List Char) : List Char := pyTitleGo false l

/-- `s[:100].rsplit(' ', 1)[0]`: everything before the last space, or the
whole list when there is no space. -/
def rsplitSpaceHead (l : List Char) : List Char :=
  let r := l.reverse
  if r.any (· = ' ') then ((r.dropWhile (fun c => c ≠ ' ')).drop 1).reverse else l

/-- The truncation step of `normalize_description`. -/
def truncateDesc (l : List Char) : List Char :=
  if MAX_DESCRIPTION_LENGTH < l.length then
    rsplitSpaceHead (l.take MAX_DESCRIPTION_LENGTH) ++ ['.', '.', '.']
  else l

/-- The four rewriting stages of `normalize_description` in source order:
keep-class filter, whitespace collapse + strip, trailing-reference-code
removal, title-casing, truncation. -/
def normalizeDescCore (l : List Char) : List Char :=
  truncateDesc (pyTitle (stripTrailingCode (collapseStrip (l.filter keepChar))))

/-- `DataValidator.normalize_description`; `return normalized or
description[:50]` falls back to the raw 50-character prefix when the
normalized text is empty. -/
def normalize_description (s : String) : String :=
  let r := normalizeDescCore s.data
  if r.isEmpty then String.mk (s.data.take 50) else String.mk r

/-! ## `DataValidator.normalize_amount` -/

def INCOME_KEYWORDS : List String :=
  ["salario", "deposito", "credito", "recebimento",
   "rendimento", "dividendo", "bonus", "restituicao"]

def TRANSFER_KEYWORDS : List String := ["pix", "ted", "doc", "transf"]

def isIncomeDesc (descLower : String) : Bool :=
  INCOME_KEYWORDS.any fun kw => strIn kw descLower

def isTransferDesc (descLower : String) : Bool :=
  TRANSFER_KEYWORDS.any fun kw => strIn kw descLower

/-- `DataValidator.normalize_amount`. -/
def normalize_amount (amount : ℚ) (description : String) : ℚ :=
  let dl := pyLower description
  let is_income := isIncomeDesc dl
  if is_income && decide (amount < 0) then |amount|
  else if !is_income && decide (0 < amount) then
    if !(isTransferDesc dl) then -amount else amount
  else amount

/-! ## Exceptions and data models (`src/models.py`, `src/validator.py`) -/

/-- The exception classes whose identity matters at the
`process_transactions` boundary.  `validationError` is the custom
`validator.ValidationError`; `pydanticError` is pydantic's
`ValidationError` (raised when a pydantic field check fails — it is *not*
a subclass of the custom one); `typeError` and `valueError` are the
corresponding builtins escaping uncaught; `importError` is the builtin
`ImportError` (pydantic converts only `ValueError` / `TypeError` /
`AssertionError` raised inside validators, so an `ImportError` raised by
a validator body escapes construction unwrapped). -/
inductive PyExc where
  | validationError (msg : String)
  | pydanticError (msg : String)
  | typeError (msg : String)
  | valueError (msg : String)
  | importError (msg : String)
deriving DecidableEq

/-- `models.TransactionInput` (all fields plain-typed; pydantic imposes no
extra constraint beyond types here). -/
structure TransactionInput where
  id : String
  date : String
  description : String
  amount : ℚ
  currency : String
  raw : Option String
deriving DecidableEq

/-- `models.TransactionOutput` as a plain record. -/
structure TransactionOutput where
  id : String
  date : String
  description : String
  amount : ℚ
  currency : String
  category : String
  subcategory : Option String
  confidence : ℚ
  normalized_description : String
  explanation : Option String
deriving DecidableEq

/-- The message of the `ImportError` raised by a function-level relative
module reference executed inside a module that was imported top-level. -/
def relImportMsg : String := "attempted relative import with no known parent package"

/-- Constructing a `models.TransactionOutput`.  The `category` field
validator `validate_category` begins with `from .config import
VALID_CATEGORIES` (models.py line 46); every module of the program imports
`models` as a top-level module (`from models import ...`, no package, no
`__init__.py`), so that relative import raises `ImportError` at call time,
before the membership check and before the `confidence` range check
(`category` is declared before `confidence`, and pydantic runs validators
in field order).  Construction therefore always fails with the raw
`ImportError`; the in-set category check and the `[0, 1]` confidence check
written in the source never execute. -/
def mkTransactionOutput (id date description : String) (amount : ℚ)
    (currency category : String) (subcategory : Option String)
    (confidence : ℚ) (normalized_description : String)
    (explanation : Option String) : Except PyExc TransactionOutput :=
  .error (.importError relImportMsg)

/-- A historical-data entry: a JSON object whose `category` / `amount`
keys may be absent. -/
structure HistEntry where
  category : Option String
  amount : Option ℚ
deriving DecidableEq

/-- `models.BatchInput` as a plain record. -/
structure BatchInput where
  user_id : Option String
  transactions : List TransactionInput
  historical_data : Option (List HistEntry)
deriving DecidableEq

/-- Constructing a `models.BatchInput`: the `transactions` field validator
`validate_batch_size` begins with `from .config import
MAX_TRANSACTIONS_PER_BATCH` (models.py line 119), which — `models` being
imported top-level — raises `ImportError` at call time, before the length
comparison.  The field itself always type-checks here (the caller passes a
list of already-built `TransactionInput` values), so the validator always
runs and construction always fails with the raw `ImportError`, for every
batch size; the size check and its `ValueError` (which pydantic would wrap
into its own `ValidationError`) are dead code. -/
def mkBatchInput (user_id : Option String) (transactions : List TransactionInput)
    (historical_data : Option (List HistEntry)) : Except PyExc BatchInput :=
  .error (.importError relImportMsg)

/-! ## `DataValidator.detect_duplicates` -/

/-- The duplicate test of `validator.py` lines 304-306: amounts within
0.01, equal dates, equal first-20-character description slices. -/
def dupCond (t1 t2 : TransactionInput) : Bool :=
  decide (|t1.amount - t2.amount| < 1/100) &&
  decide (t1.date = t2.date) &&
  decide (t1.description.data.take 20 = t2.description.data.take 20)

/-- `DataValidator.detect_duplicates`: the double loop
`for i, txn1 in enumerate(transactions): for j, txn2 in
enumerate(transactions[i+1:], start=i+1): ...` collecting `(i, j)`. -/
def detect_duplicates (txns : List TransactionInput) : List (Nat × Nat) :=
  (List.range txns.length).flatMap fun i =>
    ((List.range txns.length).filter (fun j => i < j)).filterMap fun j =>
      (txns.get? i).bind fun t1 => (txns.get? j).bind fun t2 =>
        if dupCond t1 t2 then some (i, j) else none

/-! ## Raw input values and `DataValidator.parse_csv`

A raw transaction is a JSON-ish object: each key may be absent (outer
`none`) or bound to `null` (inner `none`).  JSON values of unexpected
dynamic types (e.g. a string where a number is expected) are outside the
model. -/

structure RawTxn where
  id : Option (Option String)
  date : Option (Option String)
  description : Option (Option String)
  amount : Option (Option ℚ)
  currency : Option (Option String)
  raw : Option String
deriving DecidableEq

/-- Convert one `csv.DictReader` row into a raw transaction, following
`parse_csv`: `float(row['amount'])` wraps `ValueError`/`KeyError` into
`ValidationError`, but `float(None)` (a row shorter than the header)
raises an uncaught `TypeError`; `setdefault` fills `currency`/`raw` only
when the *key* is missing. -/
def csvRowToRawTxn (row : List (String × Option String)) (E : Extern) :
    Except PyExc RawTxn :=
  match row.lookup "amount" with
  | none => .error (.validationError "Invalid amount in row")
  | some none => .error (.typeError "float() argument must be a string or a real number, not NoneType")
  | some (some a) =>
    match E.pyFloat a with
    | none => .error (.validationError "Invalid amount in row")
    | some q =>
      .ok { id := row.lookup "id"
            date := row.lookup "date"
            description := row.lookup "description"
            amount := some (some q)
            currency := match row.lookup "currency" with
                        | none => some (some "BRL")
                        | some v => some v
            raw := (row.lookup "raw").bind (fun v => v) }

/-- `DataValidator.parse_csv`: header check, per-row conversion, empty
check; `csv.Error` is wrapped into `ValidationError`. -/
def parse_csv (E : Extern) (s : String) : Except PyExc (List RawTxn) :=
  match E.csvRead s with
  | .error e => .error (.validationError ("CSV parsing error: " ++ e))
  | .ok (fieldnames, rows) =>
    let fns := fieldnames.getD []
    if ¬ ("id" ∈ fns ∧ "date" ∈ fns ∧ "description" ∈ fns ∧ "amount" ∈ fns) then
      .error (.validationError "CSV must contain fields: id, date, description, amount")
    else do
      let txns ← rows.mapM (fun row => csvRowToRawTxn row E)
      if txns.isEmpty then
        .error (.validationError "CSV contains no data rows")
      else
        .ok txns

/-! ## `DataValidator.validate_and_normalize_batch` -/

/-- The body of the per-transaction loop.  Any exception raised inside the
loop is re-wrapped by `except Exception` into the custom
`ValidationError`, so every failure here is `validationError`:
a missing key fails the `all(k in txn ...)` check; a `null` date or
amount or currency crashes inside the loop (`None.strip()`,
`float(None)`, pydantic's `str` type check) and is wrapped likewise.
The locally computed `normalize_description` / `mask_sensitive_data`
results and the `processing_notes` list of this function are dead code in
the source (never returned, the stored `description` is the original
text), and are therefore not part of the model. -/
def normalizeOneTxn (E : Extern) (txn : RawTxn) : Except PyExc TransactionInput :=
  match txn.id, txn.date, txn.description, txn.amount with
  | some id?, some date?, some desc?, some amt? =>
    let id := id?.getD "None"
    let description := desc?.getD "None"
    match date?, amt? with
    | some date, some amount =>
      match txn.currency with
      | some none => .error (.validationError "Error processing transaction: currency must be a string")
      | currencyField =>
        let normalized_date := (normalize_date E date txn.raw).getD (isoString E.today)
        let normalized_amount := normalize_amount amount description
        .ok { id := id
              date := normalized_date
              description := description
              amount := normalized_amount
              currency := (currencyField.bind (fun v => v)).getD "BRL"
              raw := txn.raw }
    | none, _ => .error (.validationError "Error processing transaction: date is None")
    | _, none => .error (.validationError "Error processing transaction: amount is None")
  | _, _, _, _ => .error (.validationError "Transaction missing required fields")

/-- The accepted shapes of the `data` argument: a CSV string, a bare list
of transactions, or an object; `transactions` may be missing from the
object (`none`). -/
inductive InputData where
  | csv (s : String)
  | arr (txns : List RawTxn)
  | obj (user_id : Option String) (transactions : Option (List RawTxn))
        (historical_data : Option (List HistEntry))

/-- `DataValidator.validate_and_normalize_batch`. -/
def validate_and_normalize_batch (E : Extern) (data : InputData) :
    Except PyExc BatchInput := do
  let (user_id, txnsOpt, hist) ←
    match data with
    | .csv s => do
      let rows ← parse_csv E s
      pure ((none : Option String), some rows, (none : Option (List HistEntry)))
    | .arr l => pure (none, some l, none)
    | .obj u t h => pure (u, t, h)
  match txnsOpt with
  | none => .error (.validationError "Input must be a dict with transactions key or a CSV string")
  | some rawTxns => do
    let normalized ← rawTxns.mapM (normalizeOneTxn E)
    mkBatchInput user_id normalized hist

/-! ## `HeuristicClassifier` (`src/heuristic_fallback.py`) -/

/-- The keyword scan: all `(category, keyword)` pairs whose keyword occurs
in the (already lower-cased) description, in table order. -/
def heuristicMatches (description : String) : List (String × String) :=
  HEURISTIC_KEYWORDS.flatMap fun ck =>
    ck.2.filterMap fun kw => if strIn kw description then some (ck.1, kw) else none

/-- Increment a category's count in an insertion-ordered association list
(the Python dict `category_counts`). -/
def bumpCount : List (String × Nat) → String → List (String × Nat)
  | [], cat => [(cat, 1)]
  | (c, n) :: t, cat =>
    if c = cat then (c, n + 1) :: t else (c, n) :: bumpCount t cat

def buildCounts (ms : List (String × String)) : List (String × Nat) :=
  ms.foldl (fun acc m => bumpCount acc m.1) []

/-- `max(category_counts, key=category_counts.get)`: the first key (in
insertion order) with the greatest count. -/
def maxByCount : List (String × Nat) → Option (String × Nat)
  | [] => none
  | x :: t => some (t.foldl (fun best y => if best.2 < y.2 then y else best) x)

/-- The direct keyword-to-subcategory lookup table of
`_infer_subcategory`. -/
def SUBCAT_MAPPING : List (String × List (String × String)) :=
  [("alimentacao",
    [("supermercado", "supermercado"), ("mercado", "supermercado"),
     ("padaria", "padaria"), ("restaurante", "restaurante"),
     ("lanchonete", "lanchonete"), ("ifood", "delivery"), ("rappi", "delivery")]),
   ("transporte",
    [("uber", "uber"), ("99", "taxi"), ("gas", "combustivel"),
     ("gasolina", "combustivel"), ("posto", "combustivel")]),
   ("saude",
    [("farmacia", "farmacia"), ("drogaria", "farmacia"),
     ("consulta", "consulta"), ("plano", "plano_saude")]),
   ("contas",
    [("luz", "luz"), ("energia", "luz"), ("agua", "agua"),
     ("internet", "internet"), ("telefone", "telefone")]),
   ("renda",
    [("salario", "salario"), ("freelance", "freelance")])]

/-- `HeuristicClassifier._infer_subcategory`. -/
def inferSubcategory (category description : String)
    (ms : List (String × String)) : Option String :=
  match SUBCATEGORIES.lookup category with
  | none => none
  | some subs =>
    if subs.isEmpty then none
    else
      (ms.findSome? fun m =>
        if m.1 = category then
          subs.find? fun sc => strIn sc m.2 || strIn m.2 sc
        else none).orElse fun _ =>
      (SUBCAT_MAPPING.lookup category).bind fun entries =>
        entries.findSome? fun e =>
          if strIn e.1 description then some e.2 else none

/-- CPython iterates `set(...)` in a hash-dependent order; the model uses
first-occurrence order (`explanation` text is not load-bearing for any
claim). -/
def dedupKeep (l : List String) : List String :=
  l.foldl (fun acc x => if x ∈ acc then acc else acc ++ [x]) []

def joinComma : List String → String
  | [] => ""
  | [x] => x
  | x :: t => x ++ ", " ++ joinComma t

/-- `HeuristicClassifier._generate_explanation`. -/
def genExplanation (category : String) (subcategory : Option String)
    (ms : List (String × String)) : String :=
  if ms.isEmpty then "Classificação baseada em análise heurística padrão."
  else
    let kws := dedupKeep ((ms.filter (fun m => m.1 = category)).map (fun m => m.2))
    match subcategory with
    | some sc =>
      "Identificado como " ++ category ++ "/" ++ sc ++
      " baseado em palavras-chave: " ++ joinComma (kws.take 2) ++ "."
    | none =>
      "Classificado como " ++ category ++
      " por correspondência com: " ++ joinComma (kws.take 2) ++ "."

/-- `HeuristicClassifier.classify`.  Stage 1: keyword scan and base
confidence; stage 2: the high-positive-amount income rule; stage 3: the
transfer override; finally `round(confidence, 2)`. -/
def heuristicClassify (description0 : String) (amount : ℚ) : Classification :=
  let description := pyLower description0
  let ms := heuristicMatches description
  let base : String × Option String × ℚ :=
    match maxByCount (buildCounts ms) with
    | some best =>
      (best.1, inferSubcategory best.1 description ms,
       min HEURISTIC_CONFIDENCE_HI (HEURISTIC_CONFIDENCE_LO + (best.2 : ℚ) * (1/10)))
    | none => ("outros", none, HEURISTIC_CONFIDENCE_LO)
  let afterIncome : String × Option String × ℚ :=
    if 500 < amount ∧ base.1 = "outros" then ("renda", some "outros", 4/10) else base
  let afterTransfer : String × Option String × ℚ :=
    if TRANSFER_KEYWORDS.any (fun kw => strIn kw description) then
      ("transferencia",
       some (if strIn "pix" description then "pix" else "ted"),
       min (6/10) (afterIncome.2.2 + 1/10))
    else afterIncome
  { category := afterTransfer.1
    subcategory := afterTransfer.2.1
    confidence := pyRoundTo 2 afterTransfer.2.2
    explanation := some (genExplanation afterTransfer.1 afterTransfer.2.1 ms) }

/-! ## `TransactionClassifier` (`src/classifier.py`) -/

/-- `TransactionClassifier.classify_transaction` for one transaction.

`cl` is the Gemini adapter's result for this transaction: `none` covers
Gemini disabled, a swallowed exception, a timeout, an empty or malformed
reply, or missing required keys — all of which leave `classification`
falsy and select the heuristic fallback.  After the fallback, a category
outside the closed set is forced to `"outros"` with the confidence capped
at 0.3, and the `TransactionOutput` constructor runs — which, per
`mkTransactionOutput`, always raises the relative-import `ImportError`,
so this function never actually returns an output. -/
def classify_transaction (cl : Option Classification) (txn : TransactionInput) :
    Except PyExc TransactionOutput :=
  let classification :=
    match cl with
    | some c => c
    | none => heuristicClassify txn.description txn.amount
  let checked :=
    if classification.category ∈ VALID_CATEGORIES then classification
    else { classification with
           category := "outros"
           confidence := min classification.confidence (3/10) }
  mkTransactionOutput txn.id txn.date txn.description txn.amount txn.currency
    checked.category checked.subcategory checked.confidence
    (normalize_description txn.description) checked.explanation

/-- `TransactionClassifier.classify_batch`: the per-transaction loop; an
exception from any single classification aborts the batch. `oracle i` is
the Gemini result for the `i`-th transaction. -/
def classify_batch (oracle : Nat → Option Classification)
    (txns : List TransactionInput) : Except PyExc (List TransactionOutput) :=
  txns.enum.mapM fun it => classify_transaction (oracle it.1) it.2

/-! ## `InsightsGenerator` (`src/insights_generator.py`)

Alert and recommendation message texts are modelled abbreviated (the
source interpolates numbers with format specs into them); no claim
depends on message wording.  Historical entries whose `amount` key is
bound to `null` are outside the model (the source would crash on them in
either branch); `HistEntry.amount = none` models a missing key. -/

structure TrendInfo where
  change_pct : ℚ
  direction : String
deriving DecidableEq

structure Alert where
  type : String
  message : String
  related_category : Option String
deriving DecidableEq

structure Recommendation where
  id : String
  text : String
  impact_estimate_pct : Option ℚ
deriving DecidableEq

/-- Constructing a `models.Recommendation`: pydantic enforces
`Field(max_length=250)` on `text`. -/
def mkRecommendation (id text : String) (impact : Option ℚ) :
    Except PyExc Recommendation :=
  if 250 < text.length then .error (.pydanticError "text too long")
  else .ok ⟨id, text, impact⟩

/-- `Summary`; the source wraps the per-category trend map in a constant
singleton dict `{"category_trends": ...}`, modelled as the field
`category_trends` directly. -/
structure Summary where
  period_start : String
  period_end : String
  total_income : ℚ
  total_expenses : ℚ
  by_category : List (String × ℚ)
  top_3_expense_categories : List String
  category_trends : List (String × TrendInfo)
  alerts : List Alert
  recommendations : List Recommendation
deriving DecidableEq

/-- `defaultdict(float)` accumulation keyed by category, in insertion
order (`_calculate_by_category`). -/
def upsertAmount : List (String × ℚ) → String → ℚ → List (String × ℚ)
  | [], cat, a => [(cat, a)]
  | (c, v) :: t, cat, a =>
    if c = cat then (c, v + a) :: t else (c, v) :: upsertAmount t cat a

def calcByCategory (txns : List TransactionOutput) : List (String × ℚ) :=
  txns.foldl (fun acc t => upsertAmount acc t.category t.amount) []

/-- `InsightsGenerator._calculate_trends`.  `if not historical_data:`
is also true for an empty list. -/
def calcTrends (current : List (String × ℚ)) (hist : Option (List HistEntry)) :
    List (String × TrendInfo) :=
  let hd := hist.getD []
  if hd.isEmpty then current.map fun c => (c.1, ⟨0, "stable"⟩)
  else
    let histPairs := hd.filterMap fun h =>
      match h.category, h.amount with
      | some c, some a => some (c, |a|)
      | _, _ => none
    current.map fun c =>
      let vals := (histPairs.filter (fun p => p.1 = c.1)).map (fun p => p.2)
      if vals.isEmpty then (c.1, ⟨0, "stable"⟩)
      else
        let avg := vals.sum / (vals.length : ℚ)
        if 0 < avg then
          let change := ((|c.2| - avg) / avg) * 100
          let direction :=
            if TREND_THRESHOLD_UP ≤ change then "up"
            else if change ≤ TREND_THRESHOLD_DOWN then "down"
            else "stable"
          (c.1, ⟨pyRoundTo 1 change, direction⟩)
        else (c.1, ⟨0, "stable"⟩)

/-- Per-category counts of low-confidence (< 0.5) transactions, in
first-occurrence order. -/
def lowConfCounts (txns : List TransactionOutput) : List (String × Nat) :=
  txns.foldl
    (fun acc t => if t.confidence < 1/2 then bumpCount acc t.category else acc) []

/-- `InsightsGenerator._generate_alerts`: high-spend categories (> 30% of
total expenses), unusual categories (≥ 3 low-confidence transactions),
expenses > 20% above the historical total; capped at five. -/
def genAlerts (by_category : List (String × ℚ)) (total_expenses : ℚ)
    (hist : Option (List HistEntry)) (txns : List TransactionOutput) :
    List Alert :=
  let a1 := by_category.filterMap fun c =>
    if c.2 < 0 then
      let pct := if 0 < total_expenses then |c.2| / total_expenses * 100 else 0
      if 30 < pct then
        some ⟨"high_spend", "representa mais de 30 por cento dos gastos totais", some c.1⟩
      else none
    else none
  let a2 := (lowConfCounts txns).filterMap fun c =>
    if 3 ≤ c.2 then
      some (⟨"unusual_category", "transações com baixa confiança de classificação", some c.1⟩ : Alert)
    else none
  let hd := hist.getD []
  let a3 : List Alert :=
    if hd.isEmpty then []
    else
      let histTotal := (hd.map fun h => |h.amount.getD 0|).sum
      if 0 < histTotal then
        if 20 < (total_expenses - histTotal) / histTotal * 100 then
          [⟨"high_spend", "Gastos acima da média dos últimos períodos", none⟩]
        else []
      else []
  (a1 ++ a2 ++ a3).take 5

/-- First-maximum fold (Python `max(..., key=...)`: ties keep the
earliest element). -/
def maxBySnd : List (String × ℚ) → Option (String × ℚ)
  | [] => none
  | x :: t => some (t.foldl (fun best y => if best.2 < y.2 then y else best) x)

/-- The AI-recommendation loop of `_generate_recommendations`: the first
three Gemini recommendation objects are converted; a pydantic failure
mid-loop is caught by the surrounding `except`, keeping the partial list
and falling through to the heuristic section (second component `false`);
full success returns early (second component `true`). -/
def genRecsAI (recs : List GemRec) : List Recommendation × Bool :=
  (recs.take 3).foldl
    (fun acc r =>
      if acc.2 then
        match mkRecommendation (r.rid.getD ("rec_" ++ toString (acc.1.length + 1)))
                (r.text.getD "") r.impact with
        | .ok rec => (acc.1 ++ [rec], true)
        | .error _ => (acc.1, false)
      else acc)
    ([], true)

/-- Truncation toward zero (Python `int(float)`). -/
def ratTruncAbs (q : ℚ) : ℚ := ((|q|.floor : ℤ) : ℚ)

/-- `InsightsGenerator._generate_recommendations`. -/
def generate_recommendations (useGem : Bool) (E : Extern)
    (by_category : List (String × ℚ)) (total_income total_expenses : ℚ)
    (trend : List (String × TrendInfo)) : List Recommendation :=
  let aiStage : List Recommendation × Bool :=
    if useGem then
      match E.aiInsights with
      | some ins =>
        match ins.recommendations with
        | some recs => genRecsAI recs
        | none => ([], false)
      | none => ([], false)
    else ([], false)
  if aiStage.2 then aiStage.1
  else
    let recs0 := aiStage.1
    let recs1 :=
      if 0 < total_income ∧ (total_income - total_expenses) / total_income * 100 < 10 then
        recs0 ++ [⟨"rec_savings", "Sua taxa de poupança está abaixo de 10 por cento. Tente guardar pelo menos 10-20 por cento da renda mensal para segurança financeira.", some 10⟩]
      else recs0
    let maxExp := maxBySnd ((by_category.filter (fun c => c.2 < 0)).map fun c => (c.1, |c.2|))
    let recs2 :=
      match maxExp with
      | some me =>
        if 0 < me.2 then
          match trend.lookup me.1 with
          | some ti =>
            if ti.direction = "up" then
              recs1 ++ [⟨"rec_" ++ me.1, "Gastos nesta categoria estão em alta. Avalie possibilidades de redução nesta categoria para economizar.", some (ratTruncAbs ti.change_pct)⟩]
            else recs1
          | none => recs1
        else recs1
      | none => recs1
    let recs3 :=
      if recs2.isEmpty && decide (total_income * (8/10) < total_expenses) then
        recs2 ++ [⟨"rec_general", "Considere revisar pequenas despesas recorrentes (assinaturas, delivery) que somadas fazem diferença no orçamento.", some 5⟩]
      else recs2
    recs3.take 3

/-- `datetime.fromisoformat` on the `YYYY-MM-DD` strings the pipeline
produces (strict ten-character form; the broader ISO-8601 surface of
Python 3.11+ is out of scope). -/
def isoParseDate (s : String) : Option PyDate :=
  match s.data with
  | [y1, y2, y3, y4, h1, m1, m2, h2, d1, d2] =>
    if h1 = '-' && h2 = '-' then do
      let y ← fourDigitVal y1 y2 y3 y4
      let m ← twoDigitVal m1 m2
      let d ← twoDigitVal d1 d2
      mkValidDate y m d
    else none
  | _ => none

def dateLtB (a b : PyDate) : Bool :=
  a.year < b.year ||
  (a.year = b.year && (a.month < b.month ||
    (a.month = b.month && a.day < b.day)))

def minDateL (h : PyDate) (t : List PyDate) : PyDate :=
  t.foldl (fun m d => if dateLtB d m then d else m) h

def maxDateL (h : PyDate) (t : List PyDate) : PyDate :=
  t.foldl (fun m d => if dateLtB m d then d else m) h

/-- Stable descending insertion sort by the numeric component — the
behaviour of `sorted(..., key=lambda x: x[1], reverse=True)` (Python's
sort is stable, so among equal keys the earlier element stays first; the
fold inserts elements right to left, so the incoming element `x`, which is
earlier in the original list than everything already placed, must go in
front of every equal-keyed element). -/
def insertDescStable (x : String × ℚ) : List (String × ℚ) → List (String × ℚ)
  | [] => [x]
  | y :: t => if y.2 ≤ x.2 then x :: y :: t else y :: insertDescStable x t

def stableSortDesc (l : List (String × ℚ)) : List (String × ℚ) :=
  l.foldr insertDescStable []

/-- `InsightsGenerator._empty_summary`. -/
def emptySummary (E : Extern) : Summary :=
  ⟨isoString E.today, isoString E.today, 0, 0, [], [], [], [], []⟩

/-- `InsightsGenerator.generate_summary`.  `useGem` is the generator's
effective `use_gemini and gemini_client` state.  A transaction date that
`fromisoformat` rejects raises `ValueError` (escaping to the driver). -/
def generate_summary (useGem : Bool) (E : Extern) (txns : List TransactionOutput)
    (hist : Option (List HistEntry)) : Except PyExc Summary :=
  if txns.isEmpty then .ok (emptySummary E)
  else do
    let by_category := calcByCategory txns
    let total_income := ((txns.filter fun t => 0 < t.amount).map fun t => t.amount).sum
    let total_expenses := |((txns.filter fun t => t.amount < 0).map fun t => t.amount).sum|
    let expense_categories := (by_category.filter fun c => c.2 < 0).map fun c => (c.1, |c.2|)
    let top_3 := ((stableSortDesc expense_categories).take 3).map fun c => c.1
    let dates ← txns.mapM fun t =>
      match isoParseDate t.date with
      | some d => Except.ok d
      | none => Except.error (PyExc.valueError "Invalid isoformat string")
    let (period_start, period_end) :=
      match dates with
      | [] => (isoString E.today, isoString E.today)
      | h :: t => (isoString (minDateL h t), isoString (maxDateL h t))
    let trend := calcTrends by_category hist
    let alerts := genAlerts by_category total_expenses hist txns
    let recs := generate_recommendations useGem E by_category total_income total_expenses trend
    .ok { period_start := period_start
          period_end := period_end
          total_income := pyRoundTo 2 total_income
          total_expenses := pyRoundTo 2 total_expenses
          by_category := by_category.map fun c => (c.1, pyRoundTo 2 c.2)
          top_3_expense_categories := top_3
          category_trends := trend
          alerts := alerts
          recommendations := recs }

/-! ## The pipeline driver (`src/main_handler.py`) -/

structure ProcessedResult where
  user_id : Option String
  processed_at : String
  transactions : List TransactionOutput
  summary : Summary
  model_version : String
  processing_notes : Option String
deriving DecidableEq

/-- The `{code, message, hint}` error object of `ErrorResponse`. -/
structure ErrorPayload where
  code : Nat
  message : String
  hint : String
deriving DecidableEq

def PyExc.msgOf : PyExc → String
  | .validationError m => m
  | .pydanticError m => m
  | .typeError m => m
  | .valueError m => m
  | .importError m => m

/-- The `try` body of `process_transactions`: validate and normalize,
detect (and only report) duplicates, classify, compute the model-version
tag and fallback note, summarize, assemble. -/
def runPipeline (E : Extern) (data : InputData) (use_gemini : Bool) :
    Except PyExc ProcessedResult := do
  let batch ← validate_and_normalize_batch E data
  let duplicates := detect_duplicates batch.transactions
  let notes0 : List String :=
    if duplicates.isEmpty then [] else ["Detected possible duplicate transaction(s)"]
  let gemOn := use_gemini && E.geminiAvail
  let classified ← classify_batch (fun i => if gemOn then E.aiClassify i else none)
    batch.transactions
  let lowCount := (classified.filter fun t => t.confidence < 6/10).length
  let withFallbackNote :=
    use_gemini && decide ((classified.length : ℚ) * (3/10) < (lowCount : ℚ))
  let model_version :=
    if withFallbackNote then "gemini-v1.0-with-fallback"
    else if use_gemini then "gemini-v1.0" else "heuristic-fallback-v1"
  let notes :=
    if withFallbackNote then
      notes0 ++ ["transactions classified with heuristic fallback"]
    else notes0
  let summary ← generate_summary gemOn E classified batch.historical_data
  .ok { user_id := batch.user_id
        processed_at := E.nowIso
        transactions := classified
        summary := summary
        model_version := model_version
        processing_notes :=
          if notes.isEmpty then none else some (String.intercalate "; " notes) }

/-- `main_handler.process_transactions`: the custom `ValidationError`
becomes a 400 payload, every other exception a 500 payload; nothing
propagates. -/
def process_transactions (E : Extern) (data : InputData) (use_gemini : Bool) :
    Except ErrorPayload ProcessedResult :=
  match runPipeline E data use_gemini with
  | .ok r => .ok r
  | .error (.validationError m) =>
    .error ⟨400, m, "Verifique o formato dos dados de entrada. Use JSON array ou CSV válido."⟩
  | .error e =>
    .error ⟨500, "Internal processing error: " ++ e.msgOf,
            "Tente novamente ou contate o suporte se o erro persistir."⟩

/-! # Verification

Helper lemmas shared by several claims, followed by one theorem per
claim (with witnesses/counterexamples). -/

section MapMHelpers

variable {α β : Type} {f : α → Except PyExc β}

lemma except_mapM_ok_mem :
    ∀ {l : List α} {outs : List β}, l.mapM f = .ok outs →
      ∀ b ∈ outs, ∃ a ∈ l, f a = .ok b := by
  intro l
  induction l with
  | nil =>
    intro outs h b hb
    simp only [List.mapM_nil, pure] at h
    cases h
    simp at hb
  | cons a t ih =>
    intro outs h b hb
    rw [List.mapM_cons] at h
    cases ha : f a with
    | error e => rw [ha] at h; simp [Bind.bind, Except.bind] at h
    | ok x =>
      rw [ha] at h
      cases ht : t.mapM f with
      | error e => rw [ht] at h; simp [Bind.bind, Except.bind] at h
      | ok xs =>
        rw [ht] at h
        simp only [Bind.bind, Except.bind, pure, Except.pure] at h
        cases h
        rcases List.mem_cons.mp hb with rfl | hb2
        · exact ⟨a, List.mem_cons_self a t, ha⟩
        · obtain ⟨a2, ha2, hfa2⟩ := ih ht b hb2
          exact ⟨a2, List.mem_cons_of_mem a ha2, hfa2⟩

lemma except_mapM_ok_length :
    ∀ {l : List α} {outs : List β}, l.mapM f = .ok outs →
      outs.length = l.length := by
  intro l
  induction l with
  | nil =>
    intro outs h
    simp only [List.mapM_nil, pure] at h
    cases h; rfl
  | cons a t ih =>
    intro outs h
    rw [List.mapM_cons] at h
    cases ha : f a with
    | error e => rw [ha] at h; simp [Bind.bind, Except.bind] at h
    | ok x =>
      rw [ha] at h
      cases ht : t.mapM f with
      | error e => rw [ht] at h; simp [Bind.bind, Except.bind] at h
      | ok xs =>
        rw [ht] at h
        simp only [Bind.bind, Except.bind, pure, Except.pure] at h
        cases h
        simp [ih ht]

lemma except_mapM_replicate {a : α} {b : β} (h : f a = .ok b) (n : ℕ) :
    (List.replicate n a).mapM f = .ok (List.replicate n b) := by
  induction n with
  | zero => rw [List.replicate_zero, List.mapM_nil]; rfl
  | succ k ih => rw [List.replicate_succ, List.mapM_cons, h, ih]; rfl

end MapMHelpers

section RoundHelpers

lemma halfEven_intCast (n : ℤ) : halfEven (n : ℚ) = n := by
  unfold halfEven
  norm_num

lemma pyRoundTo_fixed (d : ℕ) (q : ℚ) (n : ℤ) (h : q * (10 : ℚ) ^ d = (n : ℚ)) :
    pyRoundTo d q = q := by
  unfold pyRoundTo
  rw [h, halfEven_intCast, ← h]
  field_simp

lemma pyRoundTo_two_tenth (m : ℕ) : pyRoundTo 2 ((m : ℚ) / 10) = (m : ℚ) / 10 := by
  apply pyRoundTo_fixed 2 _ (10 * m)
  push_cast
  ring

end RoundHelpers

section HeuristicConfidence

lemma conf_base_tenth (k : ℕ) :
    min HEURISTIC_CONFIDENCE_HI (HEURISTIC_CONFIDENCE_LO + (k : ℚ) * (1/10)) =
      ((min 6 (3 + k) : ℕ) : ℚ) / 10 := by
  have h1 : HEURISTIC_CONFIDENCE_LO + (k : ℚ) * (1/10) = ((3 + k : ℕ) : ℚ) / 10 := by
    unfold HEURISTIC_CONFIDENCE_LO; push_cast; ring
  have h2 : HEURISTIC_CONFIDENCE_HI = ((6 : ℕ) : ℚ) / 10 := by
    unfold HEURISTIC_CONFIDENCE_HI; norm_num
  rw [h1, h2, min_div_div_right (by norm_num : (0:ℚ) ≤ 10), ← Nat.cast_min]

lemma conf_bump_tenth (m : ℕ) :
    min (6/10 : ℚ) ((m : ℚ) / 10 + 1/10) = ((min 6 (m + 1) : ℕ) : ℚ) / 10 := by
  have h1 : (m : ℚ) / 10 + 1/10 = ((m + 1 : ℕ) : ℚ) / 10 := by push_cast; ring
  have h2 : (6/10 : ℚ) = ((6 : ℕ) : ℚ) / 10 := by norm_num
  rw [h1, h2, min_div_div_right (by norm_num : (0:ℚ) ≤ 10), ← Nat.cast_min]

/-- Every confidence `HeuristicClassifier.classify` can produce is a
whole number of tenths between 0.3 and 0.6 (before rounding: the base
0.3, `min(0.6, 0.3 + 0.1k)`, the fixed 0.4, or those bumped by 0.1 and
capped at 0.6). -/
lemma heuristic_conf_shape (d : String) (a : ℚ) :
    ∃ m : ℕ, 3 ≤ m ∧ m ≤ 6 ∧ (heuristicClassify d a).confidence = (m : ℚ) / 10 := by
  unfold heuristicClassify
  simp only []
  rcases hbest : maxByCount (buildCounts (heuristicMatches (pyLower d))) with _ | best
  · simp only [hbest]
    split_ifs <;> dsimp only
    · exact ⟨5, by norm_num, by norm_num, by
        rw [show ((6:ℚ)/10 ⊓ (4/10 + 1/10)) = ((5:ℕ):ℚ)/10 by norm_num]
        exact pyRoundTo_two_tenth 5⟩
    · exact ⟨4, by norm_num, by norm_num, by
        rw [show ((6:ℚ)/10 ⊓ (HEURISTIC_CONFIDENCE_LO + 1/10)) = ((4:ℕ):ℚ)/10 by
          norm_num [HEURISTIC_CONFIDENCE_LO]]
        exact pyRoundTo_two_tenth 4⟩
    · exact ⟨5, by norm_num, by norm_num, by
        rw [show ((6:ℚ)/10 ⊓ (4/10 + 1/10)) = ((5:ℕ):ℚ)/10 by norm_num]
        exact pyRoundTo_two_tenth 5⟩
    · exact ⟨4, by norm_num, by norm_num, by
        rw [show ((6:ℚ)/10 ⊓ (HEURISTIC_CONFIDENCE_LO + 1/10)) = ((4:ℕ):ℚ)/10 by
          norm_num [HEURISTIC_CONFIDENCE_LO]]
        exact pyRoundTo_two_tenth 4⟩
    · exact ⟨4, by norm_num, by norm_num, by
        rw [show ((4:ℚ)/10) = ((4:ℕ):ℚ)/10 by norm_num]
        exact pyRoundTo_two_tenth 4⟩
    · exact ⟨3, by norm_num, by norm_num, by
        rw [show HEURISTIC_CONFIDENCE_LO = ((3:ℕ):ℚ)/10 by
          norm_num [HEURISTIC_CONFIDENCE_LO]]
        exact pyRoundTo_two_tenth 3⟩
  · simp only [hbest]
    split_ifs <;> dsimp only
    · exact ⟨5, by norm_num, by norm_num, by
        rw [show ((6:ℚ)/10 ⊓ (4/10 + 1/10)) = ((5:ℕ):ℚ)/10 by norm_num]
        exact pyRoundTo_two_tenth 5⟩
    · refine ⟨min 6 (min 6 (3 + best.2) + 1), by omega, by omega, ?_⟩
      rw [conf_base_tenth best.2, conf_bump_tenth (min 6 (3 + best.2)),
          pyRoundTo_two_tenth]
    · exact ⟨5, by norm_num, by norm_num, by
        rw [show ((6:ℚ)/10 ⊓ (4/10 + 1/10)) = ((5:ℕ):ℚ)/10 by norm_num]
        exact pyRoundTo_two_tenth 5⟩
    · refine ⟨min 6 (min 6 (3 + best.2) + 1), by omega, by omega, ?_⟩
      rw [conf_base_tenth best.2, conf_bump_tenth (min 6 (3 + best.2)),
          pyRoundTo_two_tenth]
    · exact ⟨4, by norm_num, by norm_num, by
        rw [show ((4:ℚ)/10) = ((4:ℕ):ℚ)/10 by norm_num]
        exact pyRoundTo_two_tenth 4⟩
    · refine ⟨min 6 (3 + best.2), by omega, by omega, ?_⟩
      rw [conf_base_tenth best.2, pyRoundTo_two_tenth]

end HeuristicConfidence

/-! ## Claim C10 -/

/-- C10: for every transaction (any description and any amount),
`HeuristicClassifier.classify` returns a confidence within the configured
heuristic confidence range `[0.3, 0.6]`, never outside it. -/
theorem C10_heuristic_confidence_in_range (d : String) (a : ℚ) :
    HEURISTIC_CONFIDENCE_LO ≤ (heuristicClassify d a).confidence ∧
    (heuristicClassify d a).confidence ≤ HEURISTIC_CONFIDENCE_HI := by
  obtain ⟨m, h3, h6, he⟩ := heuristic_conf_shape d a
  rw [he]
  have hm3 : (3 : ℚ) ≤ (m : ℚ) := by exact_mod_cast h3
  have hm6 : (m : ℚ) ≤ 6 := by exact_mod_cast h6
  unfold HEURISTIC_CONFIDENCE_LO HEURISTIC_CONFIDENCE_HI
  constructor <;> [linarith; linarith]

/-! ## Claim C6 -/

/-- C6: `normalize_amount` returns the absolute value when the
description contains an income keyword and the amount is negative; the
negated value when the description contains neither income nor transfer
keywords and the amount is positive; and the amount unchanged otherwise —
in particular a positive amount with a transfer keyword (and no income
keyword) is exempt from forced negation. -/
theorem C6_amount_sign_normalization (amount : ℚ) (desc : String) :
    (isIncomeDesc (pyLower desc) = true → amount < 0 →
      normalize_amount amount desc = |amount|) ∧
    (isIncomeDesc (pyLower desc) = false → isTransferDesc (pyLower desc) = false →
      0 < amount → normalize_amount amount desc = -amount) ∧
    (isIncomeDesc (pyLower desc) = false → isTransferDesc (pyLower desc) = true →
      0 < amount → normalize_amount amount desc = amount) ∧
    (¬ (isIncomeDesc (pyLower desc) = true ∧ amount < 0) →
     ¬ (isIncomeDesc (pyLower desc) = false ∧ isTransferDesc (pyLower desc) = false ∧
        0 < amount) →
      normalize_amount amount desc = amount) := by
  refine ⟨?_, ?_, ?_, ?_⟩
  · intro hI hneg
    simp [normalize_amount, hI, hneg]
  · intro hI hT hpos
    have hneg : ¬ amount < 0 := by linarith
    simp [normalize_amount, hI, hT, hpos, hneg]
  · intro hI hT hpos
    have hneg : ¬ amount < 0 := by linarith
    simp [normalize_amount, hI, hT, hpos, hneg]
  · intro h1 h2
    unfold normalize_amount
    simp only []
    by_cases hI : isIncomeDesc (pyLower desc) = true
    · have hneg : ¬ amount < 0 := fun hn => h1 ⟨hI, hn⟩
      simp [hI, hneg]
    · have hIf : isIncomeDesc (pyLower desc) = false := by
        simpa using hI
      by_cases hpos : 0 < amount
      · have hT : isTransferDesc (pyLower desc) = true := by
          by_contra hTf
          exact h2 ⟨hIf, by simpa using hTf, hpos⟩
        simp [hIf, hpos, hT]
      · simp [hIf, hpos]

unseal Rat.inv Rat.mul Rat.add Rat.sub Rat.ofScientific in
/-- Witness for C6 at concrete inputs: an income description with a
negative amount is flipped positive; a plain purchase with a positive
amount is flipped negative. -/
theorem C6_amount_sign_normalization_witness :
    normalize_amount (-3500) "SALARIO NOVEMBRO" = |(-3500 : ℚ)| ∧
    normalize_amount 50 "SUPERMERCADO" = -(50 : ℚ) := by
  constructor
  · exact (C6_amount_sign_normalization (-3500) "SALARIO NOVEMBRO").1
      (by decide) (by norm_num)
  · exact (C6_amount_sign_normalization 50 "SUPERMERCADO").2.1
      (by decide) (by decide) (by norm_num)

/-! ## Claim C1 (code bug)

The claim (and the specification) promise that every output transaction of
a processed batch carries a category from the closed set and a confidence
in `[0, 1]`.  In the source no output transaction ever exists: the
`TransactionOutput` constructor raises `ImportError` on every call (the
relative import opening `validate_category`, models.py line 46), so
`classify_transaction` never returns — and the pipeline never even reaches
classification, because `BatchInput` construction at the end of
`validate_and_normalize_batch` raises the same `ImportError`
(models.py line 119) for every batch, sending every well-formed input to
the generic 500 handler. -/

def rawTxnSmall : RawTxn :=
  ⟨some (some "t"), some (some "2025-11-10"), some (some "TEST"),
   some (some (-10)), some (some "BRL"), none⟩

def txnSmallNormalized : TransactionInput :=
  ⟨"t", "2025-11-10", "TEST", -10, "BRL", none⟩

/-- C1 (refuting evidence): classification never produces an output
transaction at all — for every Gemini reply and every input transaction,
`classify_transaction` raises the `ImportError` of `validate_category`'s
relative import instead of returning a `TransactionOutput`; and a concrete
well-formed one-transaction batch makes the whole driver return the
500-class `ImportError` payload (the claim's guarantee about the outputs
of valid batches is about a set of outputs that is always empty, and the
category/confidence checks backing it never execute). -/
theorem C1_classification_never_produces_output :
    (∀ (cl : Option Classification) (txn : TransactionInput),
      classify_transaction cl txn = .error (.importError relImportMsg)) ∧
    (∀ (E : Extern) (ug : Bool),
      process_transactions E (.obj none (some [rawTxnSmall]) none) ug =
        .error ⟨500,
          "Internal processing error: attempted relative import with no known parent package",
          "Tente novamente ou contate o suporte se o erro persistir."⟩) := by
  constructor
  · intro cl txn
    rfl
  · intro E ug
    have h1 : normalizeOneTxn E rawTxnSmall = .ok txnSmallNormalized := rfl
    have h2 : ([rawTxnSmall].mapM (normalizeOneTxn E)) = .ok [txnSmallNormalized] := by
      rw [List.mapM_cons, h1, List.mapM_nil]
      rfl
    have h3 : validate_and_normalize_batch E (.obj none (some [rawTxnSmall]) none) =
        .error (.importError relImportMsg) := by
      unfold validate_and_normalize_batch
      simp only [Bind.bind, Except.bind, pure, Except.pure]
      rw [h2]
      rfl
    unfold process_transactions runPipeline
    simp only [Bind.bind]
    rw [h3]
    rfl

def txnPadaria : TransactionInput :=
  ⟨"txn_001", "2025-11-10", "PADARIA PAO DOCE", -259/10, "BRL", none⟩

/-! ## Claims C5 and C8 -/

lemma mem_detect_duplicates (txns : List TransactionInput) (i j : ℕ) :
    (i, j) ∈ detect_duplicates txns ↔
    ∃ t1 t2, txns.get? i = some t1 ∧ txns.get? j = some t2 ∧ i < j ∧
      dupCond t1 t2 = true := by
  unfold detect_duplicates
  simp only [List.mem_flatMap, List.mem_filterMap, List.mem_filter, List.mem_range]
  constructor
  · rintro ⟨i', hi', j', ⟨hj', hij⟩, hm⟩
    rcases hg1 : txns.get? i' with _ | t1 <;> rw [hg1] at hm
    · cases hm
    · rcases hg2 : txns.get? j' with _ | t2 <;> rw [hg2] at hm
      · cases hm
      · simp only [Option.some_bind] at hm
        by_cases hd : dupCond t1 t2 = true
        · rw [if_pos hd] at hm
          cases hm
          exact ⟨t1, t2, hg1, hg2, of_decide_eq_true hij, hd⟩
        · rw [if_neg hd] at hm
          cases hm
  · rintro ⟨t1, t2, hg1, hg2, hij, hd⟩
    have hi : i < txns.length := (List.get?_eq_some.mp hg1).1
    have hj : j < txns.length := (List.get?_eq_some.mp hg2).1
    refine ⟨i, hi, j, ⟨hj, decide_eq_true hij⟩, ?_⟩
    rw [hg1, hg2]
    simp only [Option.some_bind]
    rw [if_pos hd]

/-- C5: `detect_duplicates` reports a pair `(i, j)` with `i < j` exactly
when the amounts differ by less than 0.01, the dates are equal and the
first 20 characters of the transactions' description fields agree; and
through the whole driver duplicates are only reported — the classified
output always has exactly one transaction per normalized input
transaction, none removed. -/
theorem C5_duplicate_pair_characterization :
    (∀ (txns : List TransactionInput) (i j : ℕ),
      (i, j) ∈ detect_duplicates txns ↔
      ∃ t1 t2, txns.get? i = some t1 ∧ txns.get? j = some t2 ∧ i < j ∧
        |t1.amount - t2.amount| < 1/100 ∧ t1.date = t2.date ∧
        t1.description.data.take 20 = t2.description.data.take 20) ∧
    (∀ (E : Extern) (data : InputData) (ug : Bool) (r : ProcessedResult),
      process_transactions E data ug = .ok r →
      ∃ batch, validate_and_normalize_batch E data = .ok batch ∧
        r.transactions.length = batch.transactions.length) := by
  constructor
  · intro txns i j
    rw [mem_detect_duplicates]
    unfold dupCond
    simp only [Bool.and_eq_true, decide_eq_true_eq]
    constructor
    · rintro ⟨t1, t2, h1, h2, h3, ⟨⟨h4, h5⟩, h6⟩⟩
      exact ⟨t1, t2, h1, h2, h3, h4, h5, h6⟩
    · rintro ⟨t1, t2, h1, h2, h3, h4, h5, h6⟩
      exact ⟨t1, t2, h1, h2, h3, ⟨⟨h4, h5⟩, h6⟩⟩
  · intro E data ug r h
    unfold process_transactions at h
    rcases hr : runPipeline E data ug with e | r'
    · rw [hr] at h
      rcases e <;> simp at h
    · rw [hr] at h
      simp only [Except.ok.injEq] at h
      subst h
      unfold runPipeline at hr
      simp only [Bind.bind] at hr
      rcases hv : validate_and_normalize_batch E data with e | b <;> rw [hv] at hr
      · simp [Except.bind] at hr
      simp only [Except.bind] at hr
      rcases hcl : classify_batch
          (fun i => if ug && E.geminiAvail then E.aiClassify i else none)
          b.transactions with e | outs <;> rw [hcl] at hr
      · simp at hr
      simp only [] at hr
      rcases hs : generate_summary (ug && E.geminiAvail) E outs b.historical_data
          with e | s <;> rw [hs] at hr
      · simp at hr
      simp only [Except.ok.injEq] at hr
      refine ⟨b, rfl, ?_⟩
      rw [← hr]
      have hlen := except_mapM_ok_length
        (by exact hcl : List.mapM _ b.transactions.enum = .ok outs)
      simp only [List.enum_length] at hlen
      simp only []
      exact hlen

/-- C8: duplicate detection is symmetric: on a two-element batch
`[A, B]` the pair `(0, 1)` is reported exactly when it is reported for
`[B, A]`. -/
theorem C8_detect_duplicates_symmetric (A B : TransactionInput) :
    (0, 1) ∈ detect_duplicates [A, B] ↔ (0, 1) ∈ detect_duplicates [B, A] := by
  have hsym : ∀ X Y : TransactionInput, dupCond X Y = true → dupCond Y X = true := by
    intro X Y h
    unfold dupCond at h ⊢
    simp only [Bool.and_eq_true, decide_eq_true_eq] at h ⊢
    exact ⟨⟨by rw [abs_sub_comm]; exact h.1.1, h.1.2.symm⟩, h.2.symm⟩
  rw [mem_detect_duplicates, mem_detect_duplicates]
  constructor
  · rintro ⟨t1, t2, h1, h2, _, hd⟩
    cases h1; cases h2
    exact ⟨B, A, rfl, rfl, Nat.zero_lt_one, hsym _ _ hd⟩
  · rintro ⟨t1, t2, h1, h2, _, hd⟩
    cases h1; cases h2
    exact ⟨A, B, rfl, rfl, Nat.zero_lt_one, hsym _ _ hd⟩

/-! ## Claim C2 (code bug)

An oversized batch never yields the claimed 400-class payload.  In fact it
never even reaches the size check: `BatchInput.validate_batch_size` dies
on its first line — the relative import of `MAX_TRANSACTIONS_PER_BATCH` —
with `ImportError` for every batch, so `process_transactions` answers an
oversized batch (like every other well-formed batch) with the generic
500-class payload carrying the `ImportError` message, not a 400 payload
and not even the batch-size message written in the source. -/

def oversizedInput : InputData :=
  .obj none (some (List.replicate 201 rawTxnSmall)) none

/-- C2 (refuting evidence): for every environment and either AI mode, a
201-transaction batch — one over `MAX_TRANSACTIONS_PER_BATCH` — makes
`process_transactions` return the **500**-class payload of the generic
exception handler, carrying the `ImportError` message of
`validate_batch_size`'s relative import (never a partial result, never the
400-class payload the claim asserts, and not even the batch-size
message). -/
theorem C2_oversized_batch_returns_500 (E : Extern) (ug : Bool) :
    MAX_TRANSACTIONS_PER_BATCH < (List.replicate 201 rawTxnSmall).length ∧
    process_transactions E oversizedInput ug =
      .error { code := 500
               message := "Internal processing error: attempted relative import with no known parent package"
               hint := "Tente novamente ou contate o suporte se o erro persistir." } := by
  constructor
  · rw [List.length_replicate]
    norm_num [MAX_TRANSACTIONS_PER_BATCH]
  · have h1 : normalizeOneTxn E rawTxnSmall = .ok txnSmallNormalized := rfl
    have h2 : (List.replicate 201 rawTxnSmall).mapM (normalizeOneTxn E) =
        .ok (List.replicate 201 txnSmallNormalized) :=
      except_mapM_replicate h1 201
    have h3 : validate_and_normalize_batch E oversizedInput =
        .error (.importError relImportMsg) := by
      unfold validate_and_normalize_batch oversizedInput
      simp only [Bind.bind, Except.bind, pure, Except.pure]
      rw [h2]
      rfl
    unfold process_transactions runPipeline
    simp only [Bind.bind]
    rw [h3]
    rfl

/-! ## Claim C4 -/

/-- C4: `process_transactions` is total over the embedded input space —
the caller always receives either a complete `ProcessedResult` or one
structured error payload whose code is 400 or 500; a custom
`ValidationError` from the pipeline maps to the 400 payload and any other
exception maps to the 500 payload. -/
theorem C4_boundary_total_and_mapped (E : Extern) (data : InputData) (ug : Bool) :
    ((∃ r, process_transactions E data ug = .ok r) ∨
     (∃ p, process_transactions E data ug = .error p ∧
        (p.code = 400 ∨ p.code = 500))) ∧
    (∀ m, runPipeline E data ug = .error (.validationError m) →
      process_transactions E data ug =
        .error ⟨400, m, "Verifique o formato dos dados de entrada. Use JSON array ou CSV válido."⟩) ∧
    (∀ e, runPipeline E data ug = .error e → (∀ m, e ≠ .validationError m) →
      process_transactions E data ug =
        .error ⟨500, "Internal processing error: " ++ e.msgOf,
                "Tente novamente ou contate o suporte se o erro persistir."⟩) := by
  refine ⟨?_, ?_, ?_⟩
  · unfold process_transactions
    rcases hr : runPipeline E data ug with e | r
    · right
      rcases e with m | m | m | m | m
      · exact ⟨_, rfl, Or.inl rfl⟩
      · exact ⟨_, rfl, Or.inr rfl⟩
      · exact ⟨_, rfl, Or.inr rfl⟩
      · exact ⟨_, rfl, Or.inr rfl⟩
      · exact ⟨_, rfl, Or.inr rfl⟩
    · exact Or.inl ⟨r, rfl⟩
  · intro m hm
    unfold process_transactions
    rw [hm]
  · intro e he hne
    unfold process_transactions
    rw [he]
    rcases e with m | m | m | m | m
    · exact absurd rfl (hne m)
    · rfl
    · rfl
    · rfl
    · rfl

def externTrivial : Extern :=
  ⟨fun _ => none, fun _ => .error "", fun _ => none, ⟨2026, 1, 1⟩,
   "2026-01-01T00:00:00", false, fun _ => none, none⟩

/-- Witness for C4: an object without a `transactions` key raises the
custom `ValidationError`, and the theorem maps it to the 400 payload. -/
theorem C4_boundary_total_and_mapped_witness :
    process_transactions externTrivial (.obj none none none) false =
      .error ⟨400, "Input must be a dict with transactions key or a CSV string",
              "Verifique o formato dos dados de entrada. Use JSON array ou CSV válido."⟩ :=
  (C4_boundary_total_and_mapped externTrivial (.obj none none none) false).2.1
    "Input must be a dict with transactions key or a CSV string" rfl

unseal Rat.inv Rat.mul Rat.add Rat.sub Rat.ofScientific in
/-- Witness for C5: a two-element batch of identical transactions
produces exactly the pair `(0, 1)`. -/
theorem C5_duplicate_pair_characterization_witness :
    (0, 1) ∈ detect_duplicates [txnPadaria, txnPadaria] := by
  apply (C5_duplicate_pair_characterization.1 [txnPadaria, txnPadaria] 0 1).mpr
  exact ⟨txnPadaria, txnPadaria, rfl, rfl, by norm_num, by decide, rfl, rfl⟩

/-! ## Claim C3 -/

section SummaryTotals

lemma upsert_snd_sum (l : List (String × ℚ)) (cat : String) (a : ℚ) :
    ((upsertAmount l cat a).map (fun c => c.2)).sum =
      (l.map (fun c => c.2)).sum + a := by
  induction l with
  | nil => simp [upsertAmount]
  | cons x t ih =>
    unfold upsertAmount
    by_cases hx : x.1 = cat
    · rw [if_pos hx]
      simp [List.map_cons, List.sum_cons]
      ring
    · rw [if_neg hx]
      simp [List.map_cons, List.sum_cons, ih]
      ring

lemma calcByCategory_snd_sum (txns : List TransactionOutput) :
    (((calcByCategory txns).map (fun c => c.2)).sum) =
      (txns.map (fun t => t.amount)).sum := by
  unfold calcByCategory
  suffices h : ∀ (acc : List (String × ℚ)),
      ((txns.foldl (fun acc t => upsertAmount acc t.category t.amount) acc).map
        (fun c => c.2)).sum =
      (acc.map (fun c => c.2)).sum + (txns.map (fun t => t.amount)).sum by
    simpa using h []
  induction txns with
  | nil => intro acc; simp
  | cons t ts ih =>
    intro acc
    simp only [List.foldl_cons, List.map_cons, List.sum_cons]
    rw [ih (upsertAmount acc t.category t.amount), upsert_snd_sum]
    ring

lemma sum_filter_split (l : List ℚ) (p : ℚ → Bool) :
    l.sum = ((l.filter p).sum + (l.filter (fun x => ! p x)).sum) := by
  induction l with
  | nil => simp
  | cons a t ih =>
    by_cases ha : p a = true
    · simp [List.filter_cons, ha, List.sum_cons, ih]
      ring
    · simp [List.filter_cons, ha, List.sum_cons, ih]
      ring

lemma abs_sum_of_nonpos (l : List ℚ) (h : ∀ x ∈ l, x ≤ 0) :
    l.sum ≤ 0 ∧ |l.sum| = (l.map (fun x => |x|)).sum := by
  induction l with
  | nil => simp
  | cons a t ih =>
    obtain ⟨hs, habs⟩ := ih (fun x hx => h x (List.mem_cons_of_mem a hx))
    have ha : a ≤ 0 := h a (List.mem_cons_self a t)
    constructor
    · simp only [List.sum_cons]
      linarith
    · simp only [List.sum_cons, List.map_cons]
      rw [abs_of_nonpos (by linarith), ← habs, abs_of_nonpos ha, abs_of_nonpos hs]
      ring

/-- C3 (amended): `total_income` is the sum of positive amounts rounded
to 2 decimals; `total_expenses` is the sum of the absolute values of the
negative amounts rounded to 2 decimals; `by_category` holds the exact
per-category totals rounded to 2 decimals per category; and the *exact*
(pre-rounding) per-category totals sum to the exact total income minus
the exact total expenses.  (The stored, per-category-rounded `by_category`
values need not sum to `total_income − total_expenses`; see the
counterexample.) -/
theorem C3_summary_totals (useGem : Bool) (E : Extern)
    (txns : List TransactionOutput) (hist : Option (List HistEntry))
    (s : Summary) (h : generate_summary useGem E txns hist = .ok s) :
    s.total_income =
      pyRoundTo 2 (((txns.filter fun t => 0 < t.amount).map fun t => t.amount).sum) ∧
    s.total_expenses =
      pyRoundTo 2 (((txns.filter fun t => t.amount < 0).map fun t => |t.amount|).sum) ∧
    s.by_category = (calcByCategory txns).map (fun c => (c.1, pyRoundTo 2 c.2)) ∧
    ((calcByCategory txns).map (fun c => c.2)).sum =
      ((txns.filter fun t => 0 < t.amount).map fun t => t.amount).sum -
      ((txns.filter fun t => t.amount < 0).map fun t => |t.amount|).sum := by
  have habsneg : |((txns.filter fun t => t.amount < 0).map fun t => t.amount).sum| =
      ((txns.filter fun t => t.amount < 0).map fun t => |t.amount|).sum := by
    have hneg : ∀ x ∈ ((txns.filter fun t => t.amount < 0).map fun t => t.amount), x ≤ 0 := by
      intro x hx
      rw [List.mem_map] at hx
      obtain ⟨t, ht, rfl⟩ := hx
      rw [List.mem_filter] at ht
      have := of_decide_eq_true ht.2
      linarith
    obtain ⟨_, habs0⟩ := abs_sum_of_nonpos _ hneg
    rw [habs0, List.map_map]
    rfl
  have hsplit : ((calcByCategory txns).map (fun c => c.2)).sum =
      ((txns.filter fun t => 0 < t.amount).map fun t => t.amount).sum -
      ((txns.filter fun t => t.amount < 0).map fun t => |t.amount|).sum := by
    rw [calcByCategory_snd_sum]
    have h1 := sum_filter_split (txns.map fun t => t.amount) (fun x => decide (0 < x))
    have h2 : ((txns.map fun t => t.amount).filter (fun x => ! decide (0 < x))).sum =
        ((txns.map fun t => t.amount).filter (fun x => decide (x < 0))).sum := by
      have h3 := sum_filter_split
        ((txns.map fun t => t.amount).filter (fun x => ! decide (0 < x)))
        (fun x => decide (x < 0))
      rw [List.filter_filter, List.filter_filter] at h3
      have h4 : ((txns.map fun t => t.amount).filter
          (fun x => decide (x < 0) && ! decide (0 < x))).sum =
          ((txns.map fun t => t.amount).filter (fun x => decide (x < 0))).sum := by
        congr 1
        apply List.filter_congr
        intro x _
        by_cases hx : x < 0
        · simp [hx, not_lt.mpr (le_of_lt hx)]
        · simp [hx]
      have h5 : ((txns.map fun t => t.amount).filter
          (fun x => ! decide (x < 0) && ! decide (0 < x))).sum = 0 := by
        apply List.sum_eq_zero
        intro x hx
        rw [List.mem_filter] at hx
        have hb := hx.2
        simp only [Bool.and_eq_true, Bool.not_eq_true', decide_eq_false_iff_not] at hb
        linarith [le_antisymm (not_lt.mp hb.1) (not_lt.mp hb.2)]
      rw [h4, h5] at h3
      simpa using h3
    have hnegmap : ((txns.map fun t => t.amount).filter (fun x => decide (x < 0))) =
        ((txns.filter fun t => t.amount < 0).map fun t => t.amount) := by
      rw [List.filter_map]
      rfl
    have hposmap : ((txns.map fun t => t.amount).filter (fun x => decide (0 < x))) =
        ((txns.filter fun t => 0 < t.amount).map fun t => t.amount) := by
      rw [List.filter_map]
      rfl
    have hns : ((txns.filter fun t => t.amount < 0).map fun t => t.amount).sum ≤ 0 := by
      refine (abs_sum_of_nonpos _ ?_).1
      intro x hx
      rw [List.mem_map] at hx
      obtain ⟨t, ht, rfl⟩ := hx
      rw [List.mem_filter] at ht
      have := of_decide_eq_true ht.2
      linarith
    rw [h1, h2, hnegmap, hposmap, ← habsneg, abs_of_nonpos hns]
    ring
  by_cases hte : txns = []
  · subst hte
    unfold generate_summary at h
    rw [if_pos (by simp)] at h
    cases h
    have h0 : pyRoundTo 2 0 = 0 := pyRoundTo_fixed 2 0 0 (by norm_num)
    refine ⟨?_, ?_, ?_, ?_⟩
    · simp [emptySummary, h0, calcByCategory]
    · simp [emptySummary, h0, calcByCategory]
    · simp [emptySummary, calcByCategory]
    · simp [calcByCategory]
  · unfold generate_summary at h
    rw [if_neg (by simpa [List.isEmpty_iff] using hte)] at h
    simp only [Bind.bind] at h
    rcases hd : txns.mapM (fun t =>
        match isoParseDate t.date with
        | some d => Except.ok d
        | none => Except.error (PyExc.valueError "Invalid isoformat string"))
        with e | dates <;> rw [hd] at h
    · simp [Except.bind] at h
    · simp only [Except.bind] at h
      rcases dates with _ | ⟨d0, drest⟩ <;>
        simp only [pure, Except.pure, Except.ok.injEq] at h <;>
        subst h <;>
        exact ⟨rfl, by dsimp only; rw [habsneg], rfl, hsplit⟩

end SummaryTotals

def txnTinyIncomeA : TransactionOutput :=
  ⟨"a", "2025-11-10", "d", 1/250, "BRL", "renda", none, 1/2, "d", none⟩

def txnTinyIncomeB : TransactionOutput :=
  ⟨"b", "2025-11-10", "d", 1/250, "BRL", "transferencia", none, 1/2, "d", none⟩

def c3SumCheck : Except PyExc Summary → Bool
  | .ok s => decide ((s.by_category.map (fun c => c.2)).sum ≠
                     s.total_income - s.total_expenses)
  | .error _ => false

unseal Rat.inv Rat.mul Rat.add Rat.sub Rat.ofScientific in
/-- Counterexample to C3 as stated: two income transactions of 0.004 in
different categories.  Per-category rounding gives `by_category` values
0.00 and 0.00 (sum 0), while `total_income` rounds 0.008 to 0.01 and
`total_expenses` is 0 — so the stored `by_category` values do **not** sum
to `total_income − total_expenses`. -/
theorem C3_summary_totals_counterexample :
    ∃ s, generate_summary false externTrivial [txnTinyIncomeA, txnTinyIncomeB] none =
        .ok s ∧
      (s.by_category.map (fun c => c.2)).sum ≠ s.total_income - s.total_expenses := by
  have hc : c3SumCheck
      (generate_summary false externTrivial [txnTinyIncomeA, txnTinyIncomeB] none) = true := by
    decide
  rcases hs : generate_summary false externTrivial [txnTinyIncomeA, txnTinyIncomeB] none
      with e | s <;> rw [hs] at hc
  · simp [c3SumCheck] at hc
  · refine ⟨s, rfl, ?_⟩
    simp only [c3SumCheck, decide_eq_true_eq] at hc
    exact hc

unseal Rat.inv Rat.mul Rat.add Rat.sub Rat.ofScientific in
/-- Witness for C3 (amended) at a concrete batch. -/
theorem C3_summary_totals_witness :
    ∃ s, generate_summary false externTrivial [txnTinyIncomeA, txnTinyIncomeB] none =
        .ok s ∧
      s.total_income = pyRoundTo 2 ((([txnTinyIncomeA, txnTinyIncomeB].filter
        fun t => 0 < t.amount).map fun t => t.amount).sum) := by
  rcases hs : generate_summary false externTrivial [txnTinyIncomeA, txnTinyIncomeB] none
      with e | s
  · have hok : (generate_summary false externTrivial
        [txnTinyIncomeA, txnTinyIncomeB] none).isOk = true := by decide
    rw [hs] at hok
    cases hok
  · exact ⟨s, rfl,
      (C3_summary_totals false externTrivial [txnTinyIncomeA, txnTinyIncomeB] none s hs).1⟩

/-! ## Claim C9 -/

/-- The claim's "historical average of absolute amounts" data: the
absolute amounts of the well-formed historical entries for a category
(this is precisely what `_calculate_trends` aggregates). -/
def histAbsAmounts (hist : List HistEntry) (cat : String) : List ℚ :=
  ((hist.filterMap fun h =>
    match h.category, h.amount with
    | some c, some a => some (c, |a|)
    | _, _ => none).filter fun p => p.1 = cat).map fun p => p.2

/-- C9 (amended): for a category in the current batch with non-empty
historical data of positive average, the trend entry stores
`change_pct = round(((current_abs − avg) / avg) * 100, 1)` — the exact
formula **rounded to one decimal** — with the direction thresholds
(`≥ +5` up, `≤ −5` down, else stable) applied to the *unrounded* change;
a category with no historical data gets `change_pct = 0` and
`"stable"` (as does every category when no historical data is passed). -/
theorem C9_trend_change_pct_and_direction
    (current : List (String × ℚ)) (hist : List HistEntry) (c : String × ℚ)
    (hc : c ∈ current) (hne : hist ≠ []) :
    (∀ avg, avg = (histAbsAmounts hist c.1).sum / ((histAbsAmounts hist c.1).length : ℚ) →
      histAbsAmounts hist c.1 ≠ [] → 0 < avg →
      (c.1, TrendInfo.mk (pyRoundTo 1 ((|c.2| - avg) / avg * 100))
        (if TREND_THRESHOLD_UP ≤ (|c.2| - avg) / avg * 100 then "up"
         else if (|c.2| - avg) / avg * 100 ≤ TREND_THRESHOLD_DOWN then "down"
         else "stable")) ∈ calcTrends current (some hist)) ∧
    (histAbsAmounts hist c.1 = [] →
      (c.1, TrendInfo.mk 0 "stable") ∈ calcTrends current (some hist)) ∧
    (∀ cur2 : List (String × ℚ),
      calcTrends cur2 none = cur2.map fun p => (p.1, TrendInfo.mk 0 "stable")) := by
  have hgetD : (some hist).getD ([] : List HistEntry) = hist := rfl
  refine ⟨?_, ?_, fun cur2 => rfl⟩
  · intro avg havg hv hpos
    unfold histAbsAmounts at hv havg
    unfold calcTrends
    rw [hgetD, if_neg (fun hEmp => hne (List.isEmpty_iff.mp hEmp))]
    apply List.mem_map.mpr
    refine ⟨c, hc, ?_⟩
    dsimp only
    rw [if_neg (fun hEmp => hv (List.isEmpty_iff.mp hEmp)), if_pos (havg ▸ hpos)]
    rw [← havg]
  · intro hv
    unfold histAbsAmounts at hv
    unfold calcTrends
    rw [hgetD, if_neg (fun hEmp => hne (List.isEmpty_iff.mp hEmp))]
    apply List.mem_map.mpr
    refine ⟨c, hc, ?_⟩
    dsimp only
    rw [if_pos (List.isEmpty_iff.mpr hv)]

def histLazer : List HistEntry := [⟨some "lazer", some 3⟩]

unseal Rat.inv Rat.mul Rat.add Rat.sub Rat.ofScientific in
/-- Counterexample to C9 as stated: current "lazer" total −1 against a
historical average of 3.  The exact formula gives −200/3 ≈ −66.67%, but
the stored `change_pct` is the rounded −66.7 — not equal to the formula
value (the direction "down" is still correct). -/
theorem C9_trend_change_pct_counterexample :
    calcTrends [("lazer", -1)] (some histLazer) =
      [("lazer", TrendInfo.mk (-667/10) "down")] ∧
    (-667/10 : ℚ) ≠ (|(-1 : ℚ)| - 3) / 3 * 100 := by
  constructor
  · decide
  · decide

unseal Rat.inv Rat.mul Rat.add Rat.sub Rat.ofScientific in
/-- Witness for C9 (amended) at the same concrete data. -/
theorem C9_trend_change_pct_and_direction_witness :
    ("lazer", TrendInfo.mk (pyRoundTo 1 ((|(-1 : ℚ)| - 3) / 3 * 100))
      (if TREND_THRESHOLD_UP ≤ (|(-1 : ℚ)| - 3) / 3 * 100 then "up"
       else if (|(-1 : ℚ)| - 3) / 3 * 100 ≤ TREND_THRESHOLD_DOWN then "down"
       else "stable")) ∈ calcTrends [("lazer", -1)] (some histLazer) := by
  have h := (C9_trend_change_pct_and_direction [("lazer", -1)] histLazer
      ("lazer", -1) (by decide) (by decide)).1
      ((histAbsAmounts histLazer "lazer").sum /
        ((histAbsAmounts histLazer "lazer").length : ℚ)) rfl (by decide) (by decide)
  have havg : (histAbsAmounts histLazer "lazer").sum /
      ((histAbsAmounts histLazer "lazer").length : ℚ) = 3 := by decide
  rw [havg] at h
  exact h

/-! ## Claim C7: groundwork on characters -/

section CharFacts

lemma toNat_ofNat_valid (n : ℕ) (h : n < 55296) : (Char.ofNat n).toNat = n := by
  rw [Char.ofNat, dif_pos (Or.inl h)]
  rfl

lemma char_eq_of_toNat {a b : Char} (h : a.toNat = b.toNat) : a = b :=
  Char.ext (UInt32.ext h)

lemma pySpace_cases (c : Char) (h : isPySpace c = true) :
    c = ' ' ∨ c = '\t' ∨ c = '\n' ∨ c = '\r' ∨ c = '\x0b' ∨ c = '\x0c' := by
  simpa [isPySpace, or_assoc] using h

lemma isCased_not_space (c : Char) (h : isCased c = true) : isPySpace c = false := by
  by_contra hs
  have hs2 : isPySpace c = true := by
    cases hps : isPySpace c
    · exact absurd hps hs
    · rfl
  rcases pySpace_cases c hs2 with rfl | rfl | rfl | rfl | rfl | rfl <;> revert h <;> decide

lemma keepChar_of_cased (c : Char) (h : isCased c = true) : keepChar c = true := by
  unfold keepChar isWordChar
  rw [h]
  rfl

lemma acc_up_facts : ∀ p ∈ accentPairs,
    accentPairs.find? (fun q => q.1 = p.2) = none ∧ asciiUp p.2 = p.2 ∧
    accentPairs.find? (fun q => q.2 = p.2) = some p ∧
    isCased p.2 = true := by decide

lemma acc_low_facts : ∀ p ∈ accentPairs,
    accentPairs.find? (fun q => q.2 = p.1) = none ∧ asciiDown p.1 = p.1 ∧
    accentPairs.find? (fun q => q.1 = p.1) = some p ∧
    isCased p.1 = true := by decide

lemma acc_toNat_bounds : ∀ p ∈ accentPairs,
    224 ≤ p.1.toNat ∧ p.1.toNat ≤ 250 ∧ 192 ≤ p.2.toNat ∧ p.2.toNat ≤ 218 := by
  decide

lemma find?_accLow_none (c : Char) (h : c.toNat < 224) :
    accentPairs.find? (fun q => q.1 = c) = none := by
  rw [List.find?_eq_none]
  intro q hq
  simp only [decide_eq_true_eq]
  intro hEq
  have hb := (acc_toNat_bounds q hq).1
  rw [hEq] at hb
  omega

lemma find?_accUp_none (c : Char) (h : c.toNat < 192) :
    accentPairs.find? (fun q => q.2 = c) = none := by
  rw [List.find?_eq_none]
  intro q hq
  simp only [decide_eq_true_eq]
  intro hEq
  have hb := (acc_toNat_bounds q hq).2.2.1
  rw [hEq] at hb
  omega

lemma asciiUp_in (c : Char) (h : 97 ≤ c.toNat ∧ c.toNat ≤ 122) :
    (asciiUp c).toNat = c.toNat - 32 := by
  unfold asciiUp
  rw [if_pos (by simp [h.1, h.2])]
  exact toNat_ofNat_valid _ (by omega)

lemma asciiUp_out (c : Char) (h : ¬ (97 ≤ c.toNat ∧ c.toNat ≤ 122)) :
    asciiUp c = c := by
  unfold asciiUp
  rw [if_neg (by simpa using fun h1 h2 => h ⟨h1, h2⟩)]

lemma asciiDown_in (c : Char) (h : 65 ≤ c.toNat ∧ c.toNat ≤ 90) :
    (asciiDown c).toNat = c.toNat + 32 := by
  unfold asciiDown
  rw [if_pos (by simp [h.1, h.2])]
  exact toNat_ofNat_valid _ (by omega)

lemma asciiDown_out (c : Char) (h : ¬ (65 ≤ c.toNat ∧ c.toNat ≤ 90)) :
    asciiDown c = c := by
  unfold asciiDown
  rw [if_neg (by simpa using fun h1 h2 => h ⟨h1, h2⟩)]

lemma isCased_toNat (c : Char) :
    isCased c = true ↔
      (97 ≤ c.toNat ∧ c.toNat ≤ 122) ∨ (65 ≤ c.toNat ∧ c.toNat ≤ 90) ∨
      isAccent c = true := by
  unfold isCased isAsciiLower isAsciiUpper
  constructor
  · intro h
    simp only [Bool.or_eq_true, Bool.and_eq_true, decide_eq_true_eq] at h
    rcases h with (h | h) | h
    · exact Or.inl h
    · exact Or.inr (Or.inl h)
    · exact Or.inr (Or.inr h)
  · intro h
    simp only [Bool.or_eq_true, Bool.and_eq_true, decide_eq_true_eq]
    rcases h with h | h | h
    · exact Or.inl (Or.inl h)
    · exact Or.inl (Or.inr h)
    · exact Or.inr h

end CharFacts

section CaseMapFacts

lemma pyUpperChar_of_none (c : Char)
    (hf : accentPairs.find? (fun p => p.1 = c) = none) :
    pyUpperChar c = asciiUp c := by
  unfold pyUpperChar
  rw [hf]

lemma pyUpperChar_of_some (c : Char) (p : Char × Char)
    (hf : accentPairs.find? (fun q => q.1 = c) = some p) :
    pyUpperChar c = p.2 := by
  unfold pyUpperChar
  rw [hf]

lemma pyLowerChar_of_none (c : Char)
    (hf : accentPairs.find? (fun p => p.2 = c) = none) :
    pyLowerChar c = asciiDown c := by
  unfold pyLowerChar
  rw [hf]

lemma pyLowerChar_of_some (c : Char) (p : Char × Char)
    (hf : accentPairs.find? (fun q => q.2 = c) = some p) :
    pyLowerChar c = p.1 := by
  unfold pyLowerChar
  rw [hf]

lemma pyUpperChar_idem (c : Char) : pyUpperChar (pyUpperChar c) = pyUpperChar c := by
  rcases hf : accentPairs.find? (fun p => p.1 = c) with _ | p
  · rw [pyUpperChar_of_none c hf]
    by_cases hr : 97 ≤ c.toNat ∧ c.toNat ≤ 122
    · have ht := asciiUp_in c hr
      rw [pyUpperChar_of_none _ (find?_accLow_none _ (by omega)),
          asciiUp_out _ (by omega)]
    · rw [asciiUp_out c hr, pyUpperChar_of_none c hf, asciiUp_out c hr]
  · have hmem := List.mem_of_find?_eq_some hf
    rw [pyUpperChar_of_some c p hf,
        pyUpperChar_of_none p.2 (acc_up_facts p hmem).1,
        (acc_up_facts p hmem).2.1]

lemma pyLowerChar_idem (c : Char) : pyLowerChar (pyLowerChar c) = pyLowerChar c := by
  rcases hf : accentPairs.find? (fun p => p.2 = c) with _ | p
  · rw [pyLowerChar_of_none c hf]
    by_cases hr : 65 ≤ c.toNat ∧ c.toNat ≤ 90
    · have ht := asciiDown_in c hr
      rw [pyLowerChar_of_none _ (find?_accUp_none _ (by omega)),
          asciiDown_out _ (by omega)]
    · rw [asciiDown_out c hr, pyLowerChar_of_none c hf, asciiDown_out c hr]
  · have hmem := List.mem_of_find?_eq_some hf
    rw [pyLowerChar_of_some c p hf,
        pyLowerChar_of_none p.1 (acc_low_facts p hmem).1,
        (acc_low_facts p hmem).2.1]

lemma isCased_pyUpperChar (c : Char) : isCased (pyUpperChar c) = isCased c := by
  rcases hf : accentPairs.find? (fun p => p.1 = c) with _ | p
  · rw [pyUpperChar_of_none c hf]
    by_cases hr : 97 ≤ c.toNat ∧ c.toNat ≤ 122
    · have ht := asciiUp_in c hr
      have h1 : isCased c = true := (isCased_toNat c).mpr (Or.inl hr)
      have h2 : isCased (asciiUp c) = true :=
        (isCased_toNat _).mpr (Or.inr (Or.inl ⟨by omega, by omega⟩))
      rw [h1, h2]
    · rw [asciiUp_out c hr]
  · have hmem := List.mem_of_find?_eq_some hf
    have heq : p.1 = c := by simpa using List.find?_some hf
    rw [pyUpperChar_of_some c p hf, (acc_up_facts p hmem).2.2.2, ← heq,
        (acc_low_facts p hmem).2.2.2]

lemma isCased_pyLowerChar (c : Char) : isCased (pyLowerChar c) = isCased c := by
  rcases hf : accentPairs.find? (fun p => p.2 = c) with _ | p
  · rw [pyLowerChar_of_none c hf]
    by_cases hr : 65 ≤ c.toNat ∧ c.toNat ≤ 90
    · have ht := asciiDown_in c hr
      have h1 : isCased c = true := (isCased_toNat c).mpr (Or.inr (Or.inl hr))
      have h2 : isCased (asciiDown c) = true :=
        (isCased_toNat _).mpr (Or.inl ⟨by omega, by omega⟩)
      rw [h1, h2]
    · rw [asciiDown_out c hr]
  · have hmem := List.mem_of_find?_eq_some hf
    have heq : p.2 = c := by simpa using List.find?_some hf
    rw [pyLowerChar_of_some c p hf, (acc_low_facts p hmem).2.2.2, ← heq,
        (acc_up_facts p hmem).2.2.2]

lemma titleMap_uncased (b : Bool) (c : Char) (h : isCased c = false) :
    titleMap b c = c := by
  unfold titleMap
  rw [h]
  rfl

lemma isCased_titleMap (b : Bool) (c : Char) :
    isCased (titleMap b c) = isCased c := by
  by_cases h : isCased c = true
  · unfold titleMap
    rw [if_pos h]
    cases b
    · simp only [Bool.false_eq_true, if_false, isCased_pyUpperChar]
    · simp only [if_true, isCased_pyLowerChar]
  · rw [titleMap_uncased b c (by simpa using h)]

lemma isPySpace_titleMap (b : Bool) (c : Char) :
    isPySpace (titleMap b c) = isPySpace c := by
  by_cases h : isCased c = true
  · have h1 : isCased (titleMap b c) = true := by rw [isCased_titleMap]; exact h
    rw [isCased_not_space _ h1, isCased_not_space _ h]
  · rw [titleMap_uncased b c (by simpa using h)]

lemma keepChar_titleMap (b : Bool) (c : Char) :
    keepChar (titleMap b c) = keepChar c := by
  by_cases h : isCased c = true
  · have h1 : isCased (titleMap b c) = true := by rw [isCased_titleMap]; exact h
    rw [keepChar_of_cased _ h1, keepChar_of_cased _ h]
  · rw [titleMap_uncased b c (by simpa using h)]

lemma titleMap_idem (b : Bool) (c : Char) :
    titleMap b (titleMap b c) = titleMap b c := by
  by_cases h : isCased c = true
  · have h1 : isCased (titleMap b c) = true := by rw [isCased_titleMap]; exact h
    unfold titleMap
    rw [if_pos h, if_pos (by unfold titleMap at h1; rwa [if_pos h] at h1)]
    cases b
    · simp only [Bool.false_eq_true, if_false, pyUpperChar_idem]
    · simp only [if_true, pyLowerChar_idem]
  · rw [titleMap_uncased b c (by simpa using h), titleMap_uncased b c (by simpa using h)]

end CaseMapFacts

section WsCanon

/-- Whitespace characters present are exactly the plain space. -/
def wsOnlySpace (l : List Char) : Prop := ∀ c ∈ l, isPySpace c = true → c = ' '

/-- No two adjacent whitespace characters. -/
def noAdjWs (l : List Char) : Prop :=
  List.Chain' (fun a b => ¬ (isPySpace a = true ∧ isPySpace b = true)) l

def noLeadWs (l : List Char) : Prop := ∀ c ∈ l.head?, isPySpace c = false

def noTrailWs (l : List Char) : Prop := ∀ c ∈ l.getLast?, isPySpace c = false

/-- The canonical whitespace shape produced by
`re.sub(r'\s+', ' ', s).strip()`. -/
def canonWs (l : List Char) : Prop :=
  wsOnlySpace l ∧ noAdjWs l ∧ noLeadWs l ∧ noTrailWs l

lemma dropWhile_eq_drop {α : Type} (p : α → Bool) (l : List α) :
    l.dropWhile p = l.drop (l.takeWhile p).length := by
  induction l with
  | nil => rfl
  | cons a t ih =>
    by_cases ha : p a = true
    · simp [List.dropWhile_cons, List.takeWhile_cons, ha, ih]
    · simp [List.dropWhile_cons, List.takeWhile_cons, ha]

lemma mem_dropWhile_of_not {α : Type} (p : α → Bool) (l : List α) (c : α)
    (hc : c ∈ l) (hp : p c = false) : c ∈ l.dropWhile p := by
  induction l with
  | nil => cases hc
  | cons a t ih =>
    by_cases ha : p a = true
    · rw [List.dropWhile_cons, if_pos ha]
      rcases List.mem_cons.mp hc with rfl | hct
      · rw [ha] at hp; cases hp
      · exact ih hct
    · rw [List.dropWhile_cons, if_neg ha]
      exact hc

lemma collapseWs_mem (l : List Char) (c : Char) (hc : c ∈ collapseWs l) :
    c = ' ' ∨ c ∈ l := by
  induction l with
  | nil => cases hc
  | cons c1 t ih =>
    cases t with
    | nil =>
      unfold collapseWs at hc
      by_cases h1 : isPySpace c1 = true
      · rw [if_pos h1] at hc
        rcases List.mem_singleton.mp hc with rfl
        exact Or.inl rfl
      · rw [if_neg h1] at hc
        rcases List.mem_singleton.mp hc with rfl
        exact Or.inr (List.mem_singleton.mpr rfl)
    | cons c2 t2 =>
      unfold collapseWs at hc
      by_cases h12 : (isPySpace c1 && isPySpace c2) = true
      · rw [if_pos h12] at hc
        rcases ih hc with h | h
        · exact Or.inl h
        · exact Or.inr (List.mem_cons_of_mem c1 h)
      · rw [if_neg h12] at hc
        rcases List.mem_cons.mp hc with rfl | h
        · by_cases h1 : isPySpace c1 = true
          · rw [if_pos h1]
            exact Or.inl rfl
          · rw [if_neg h1]
            exact Or.inr (List.mem_cons_self _ _)
        · rcases ih h with h2 | h2
          · exact Or.inl h2
          · exact Or.inr (List.mem_cons_of_mem c1 h2)

lemma collapseWs_mem_of_not_space (l : List Char) (c : Char) (hc : c ∈ l)
    (hs : isPySpace c = false) : c ∈ collapseWs l := by
  induction l with
  | nil => cases hc
  | cons c1 t ih =>
    cases t with
    | nil =>
      rcases List.mem_singleton.mp hc with rfl
      unfold collapseWs
      rw [if_neg (by rw [hs]; exact Bool.false_ne_true)]
      exact List.mem_singleton.mpr rfl
    | cons c2 t2 =>
      unfold collapseWs
      by_cases h12 : (isPySpace c1 && isPySpace c2) = true
      · rw [if_pos h12]
        rcases List.mem_cons.mp hc with rfl | h
        · rw [Bool.and_eq_true] at h12
          rw [h12.1] at hs
          cases hs
        · exact ih h
      · rw [if_neg h12]
        rcases List.mem_cons.mp hc with rfl | h
        · rw [if_neg (by rw [hs]; exact Bool.false_ne_true)]
          exact List.mem_cons_self _ _
        · exact List.mem_cons_of_mem _ (ih h)

lemma collapseWs_head (c : Char) (l : List Char) :
    (collapseWs (c :: l)).head? = some (if isPySpace c then ' ' else c) := by
  induction l generalizing c with
  | nil =>
    unfold collapseWs
    by_cases h : isPySpace c = true
    · rw [if_pos h, if_pos h]
      rfl
    · rw [if_neg h, if_neg h]
      rfl
  | cons c2 t ih =>
    unfold collapseWs
    by_cases h12 : (isPySpace c && isPySpace c2) = true
    · rw [if_pos h12, ih c2]
      rw [Bool.and_eq_true] at h12
      rw [if_pos h12.1, if_pos h12.2]
    · rw [if_neg h12]
      rfl

lemma collapseWs_wsOnlySpace (l : List Char) : wsOnlySpace (collapseWs l) := by
  induction l with
  | nil => intro c hc; cases hc
  | cons c1 t ih =>
    cases t with
    | nil =>
      intro c hc hsp
      unfold collapseWs at hc
      by_cases h1 : isPySpace c1 = true
      · rw [if_pos h1] at hc
        exact List.mem_singleton.mp hc
      · rw [if_neg h1] at hc
        rcases List.mem_singleton.mp hc with rfl
        rw [hsp] at h1
        cases h1 rfl
    | cons c2 t2 =>
      intro c hc hsp
      unfold collapseWs at hc
      by_cases h12 : (isPySpace c1 && isPySpace c2) = true
      · rw [if_pos h12] at hc
        exact ih c hc hsp
      · rw [if_neg h12] at hc
        rcases List.mem_cons.mp hc with rfl | h
        · by_cases h1 : isPySpace c1 = true
          · rw [if_pos h1]
          · rw [if_neg h1] at hsp
            rw [hsp] at h1
            cases h1 rfl
        · exact ih c h hsp

lemma collapseWs_noAdj (l : List Char) : noAdjWs (collapseWs l) := by
  induction l with
  | nil => exact List.chain'_nil
  | cons c1 t ih =>
    cases t with
    | nil =>
      unfold collapseWs
      by_cases h1 : isPySpace c1 = true
      · rw [if_pos h1]; exact List.chain'_singleton _
      · rw [if_neg h1]; exact List.chain'_singleton _
    | cons c2 t2 =>
      unfold collapseWs
      by_cases h12 : (isPySpace c1 && isPySpace c2) = true
      · rw [if_pos h12]; exact ih
      · rw [if_neg h12]
        rw [Bool.and_eq_true] at h12
        rcases List.head?_eq_some_iff.mp (collapseWs_head c2 t2) with ⟨rest, hrest⟩
        rw [hrest]
        unfold noAdjWs
        rw [List.chain'_cons]
        refine ⟨?_, hrest ▸ ih⟩
        by_cases h1 : isPySpace c1 = true
        · have h2 : isPySpace c2 = false := by
            cases hc2 : isPySpace c2
            · rfl
            · exact absurd (And.intro h1 hc2) h12
          rw [if_pos h1, if_neg (by rw [h2]; exact Bool.false_ne_true)]
          intro ⟨_, hb⟩
          rw [h2] at hb
          cases hb
        · rw [if_neg h1]
          intro ⟨ha, _⟩
          rw [ha] at h1
          cases h1 rfl

lemma collapseWs_fixed (l : List Char) (h1 : wsOnlySpace l) (h2 : noAdjWs l) :
    collapseWs l = l := by
  induction l with
  | nil => rfl
  | cons c1 t ih =>
    cases t with
    | nil =>
      unfold collapseWs
      by_cases hs : isPySpace c1 = true
      · rw [if_pos hs, h1 c1 (List.mem_singleton.mpr rfl) hs]
      · rw [if_neg hs]
    | cons c2 t2 =>
      unfold collapseWs
      have hR := (List.chain'_cons.mp h2).1
      have h2t := (List.chain'_cons.mp h2).2
      rw [if_neg (by
        rw [Bool.and_eq_true]
        intro ⟨ha, hb⟩
        exact hR ⟨ha, hb⟩)]
      have ih2 := ih (fun c hc hsp => h1 c (List.mem_cons_of_mem c1 hc) hsp) h2t
      rw [ih2]
      by_cases hs : isPySpace c1 = true
      · rw [if_pos hs, h1 c1 (List.mem_cons_self _ _) hs]
      · rw [if_neg hs]

lemma noAdj_reverse (l : List Char) (h : noAdjWs l) : noAdjWs l.reverse := by
  unfold noAdjWs at h ⊢
  rw [List.chain'_reverse]
  exact h.imp fun a b hab => fun ⟨x, y⟩ => hab ⟨y, x⟩

lemma dropWhile_noAdj (p : Char → Bool) (l : List Char) (h : noAdjWs l) :
    noAdjWs (l.dropWhile p) := by
  rw [dropWhile_eq_drop]
  exact h.drop _

lemma dropWhile_head_not (p : Char → Bool) (l : List Char) :
    ∀ c ∈ (l.dropWhile p).head?, p c = false := by
  intro c hc
  have hmatch := List.head?_dropWhile_not p l
  rcases hh : (l.dropWhile p).head? with _ | d
  · rw [hh] at hc
    cases hc
  · rw [hh] at hc hmatch
    rw [Option.mem_def] at hc
    injection hc with hdc
    subst hdc
    simpa using hmatch

lemma pyStripChars_subset (l : List Char) : ∀ c ∈ pyStripChars l, c ∈ l := by
  intro c hc
  unfold pyStripChars at hc
  rw [List.mem_reverse] at hc
  have h1 := (List.dropWhile_sublist (l := (l.dropWhile isPySpace).reverse) isPySpace).mem hc
  rw [List.mem_reverse] at h1
  exact (List.dropWhile_sublist isPySpace).mem h1

lemma pyStrip_noAdj (l : List Char) (h : noAdjWs l) : noAdjWs (pyStripChars l) := by
  unfold pyStripChars
  exact noAdj_reverse _ (dropWhile_noAdj _ _ (noAdj_reverse _ (dropWhile_noAdj _ _ h)))

lemma getLast?_dropWhile (p : Char → Bool) (l : List Char)
    (h : l.dropWhile p ≠ []) : (l.dropWhile p).getLast? = l.getLast? := by
  rw [dropWhile_eq_drop] at h ⊢
  conv_rhs => rw [← List.take_append_drop (l.takeWhile p).length l]
  rw [List.getLast?_append_of_ne_nil _ h]

lemma pyStrip_noLead (l : List Char) : noLeadWs (pyStripChars l) := by
  intro c hc
  unfold pyStripChars at hc
  rw [List.head?_reverse] at hc
  by_cases hnil : ((l.dropWhile isPySpace).reverse.dropWhile isPySpace) = []
  · rw [hnil] at hc
    cases hc
  · rw [getLast?_dropWhile _ _ hnil, List.getLast?_reverse] at hc
    exact dropWhile_head_not isPySpace l c hc

lemma pyStrip_noTrail (l : List Char) : noTrailWs (pyStripChars l) := by
  intro c hc
  unfold pyStripChars at hc
  rw [List.getLast?_reverse] at hc
  exact dropWhile_head_not isPySpace _ c hc

lemma dropWhile_eq_self_of_head (p : Char → Bool) (l : List Char)
    (h : ∀ c ∈ l.head?, p c = false) : l.dropWhile p = l := by
  cases l with
  | nil => rfl
  | cons c t =>
    rw [List.dropWhile_cons, if_neg (by rw [h c rfl]; exact Bool.false_ne_true)]

lemma pyStrip_fixed (l : List Char) (hle : noLeadWs l) (htr : noTrailWs l) :
    pyStripChars l = l := by
  unfold pyStripChars
  rw [dropWhile_eq_self_of_head _ _ hle]
  rw [dropWhile_eq_self_of_head _ _ (by
    intro c hc
    rw [List.head?_reverse] at hc
    exact htr c hc)]
  exact List.reverse_reverse l

lemma collapseStrip_canon (l : List Char) : canonWs (collapseStrip l) :=
  ⟨fun c hc => (collapseWs_wsOnlySpace l) c (pyStripChars_subset _ c hc),
   pyStrip_noAdj _ (collapseWs_noAdj l),
   pyStrip_noLead _, pyStrip_noTrail _⟩

lemma collapseStrip_fixed (l : List Char) (h : canonWs l) : collapseStrip l = l := by
  unfold collapseStrip
  rw [collapseWs_fixed l h.1 h.2.1]
  exact pyStrip_fixed l h.2.2.1 h.2.2.2

lemma collapseStrip_mem (l : List Char) (c : Char) (hc : c ∈ collapseStrip l) :
    c = ' ' ∨ c ∈ l :=
  collapseWs_mem l c (pyStripChars_subset _ c hc)

lemma dropWhile_nil_of_all (p : Char → Bool) (l : List Char)
    (h : ∀ c ∈ l, p c = true) : l.dropWhile p = [] := by
  induction l with
  | nil => rfl
  | cons c t ih =>
    rw [List.dropWhile_cons, if_pos (h c (List.mem_cons_self _ _))]
    exact ih fun d hd => h d (List.mem_cons_of_mem c hd)

lemma collapseStrip_nil_of_allspace (l : List Char)
    (h : ∀ c ∈ l, isPySpace c = true) : collapseStrip l = [] := by
  have h1 : (collapseWs l).dropWhile isPySpace = [] :=
    dropWhile_nil_of_all _ _ (fun c hc => by
      rcases collapseWs_mem l c hc with rfl | hcl
      · rfl
      · exact h c hcl)
  unfold collapseStrip pyStripChars
  rw [h1]
  rfl

lemma collapseStrip_allspace_of_nil (l : List Char)
    (h : collapseStrip l = []) : ∀ c ∈ l, isPySpace c = true := by
  intro c hc
  by_contra hs
  have hs2 : isPySpace c = false := by
    cases hps : isPySpace c
    · rfl
    · exact absurd hps hs
  have h1 : c ∈ collapseWs l := collapseWs_mem_of_not_space l c hc hs2
  have h2 : c ∈ pyStripChars (collapseWs l) := by
    unfold pyStripChars
    rw [List.mem_reverse]
    apply mem_dropWhile_of_not _ _ _ _ hs2
    rw [List.mem_reverse]
    exact mem_dropWhile_of_not _ _ _ h1 hs2
  rw [← collapseStrip] at h2
  rw [h] at h2
  cases h2

lemma reverse_drop_reverse {α : Type} (l : List α) (n : ℕ) :
    (l.reverse.drop n).reverse = l.take (l.length - n) := by
  rw [List.drop_reverse, List.reverse_reverse]

lemma stripTrailingCode_eq_alt (l : List Char) :
    stripTrailingCode l = l ∨
    (stripTrailingCode l =
       ((l.reverse.dropWhile isAsciiDigit).dropWhile isPySpace).reverse ∧
     l.reverse.dropWhile isAsciiDigit ≠ []) := by
  simp only [stripTrailingCode]
  split_ifs with h5 hw
  · exact Or.inl rfl
  · refine Or.inr ⟨?_, ?_⟩
    · rw [← dropWhile_eq_drop, ← dropWhile_eq_drop]
    · rw [← dropWhile_eq_drop] at hw
      intro hnil
      rw [hnil] at hw
      exact hw rfl
  · exact Or.inl rfl

lemma stripTrailingCode_take (l : List Char) :
    ∃ n, stripTrailingCode l = l.take n := by
  rcases stripTrailingCode_eq_alt l with he | ⟨he, _⟩
  · exact ⟨l.length, by rw [he, List.take_length]⟩
  · rw [he, dropWhile_eq_drop, dropWhile_eq_drop, List.drop_drop, List.drop_reverse,
        List.reverse_reverse]
    exact ⟨_, rfl⟩

lemma stripTrailingCode_noTrail (l : List Char) (h : noTrailWs l) :
    noTrailWs (stripTrailingCode l) := by
  rcases stripTrailingCode_eq_alt l with he | ⟨he, _⟩
  · rw [he]; exact h
  · rw [he]
    intro c hc
    rw [List.getLast?_reverse] at hc
    exact dropWhile_head_not isPySpace _ c hc

lemma stripTrailingCode_nil (l : List Char) (hlead : noLeadWs l)
    (h0 : stripTrailingCode l = []) : l = [] := by
  rcases stripTrailingCode_eq_alt l with he | ⟨he, hne⟩
  · rw [he] at h0; exact h0
  · rw [he] at h0
    rw [List.reverse_eq_nil_iff, List.dropWhile_eq_nil_iff] at h0
    rcases hr : (l.reverse.dropWhile isAsciiDigit).getLast? with _ | c0
    · rw [List.getLast?_eq_none_iff] at hr
      exact absurd hr hne
    · have hm : c0 ∈ l.reverse.dropWhile isAsciiDigit := by
        rcases List.getLast?_eq_some_iff.mp hr with ⟨ys, hys⟩
        rw [hys]
        exact List.mem_append.mpr (Or.inr (List.mem_cons_self _ _))
      have hsp : isPySpace c0 = true := h0 c0 hm
      have hlast : l.reverse.getLast? = some c0 := by
        rw [← getLast?_dropWhile isAsciiDigit l.reverse hne]
        exact hr
      rw [List.getLast?_reverse] at hlast
      have := hlead c0 hlast
      rw [hsp] at this
      cases this

lemma wsOnly_take (l : List Char) (n : ℕ) (h : wsOnlySpace l) :
    wsOnlySpace (l.take n) :=
  fun c hc hs => h c (List.mem_of_mem_take hc) hs

lemma noAdj_take (l : List Char) (n : ℕ) (h : noAdjWs l) : noAdjWs (l.take n) :=
  List.Chain'.take h n

lemma noLead_take (l : List Char) (n : ℕ) (h : noLeadWs l) : noLeadWs (l.take n) := by
  intro c hc
  rw [List.head?_take] at hc
  by_cases hn : n = 0
  · rw [if_pos hn] at hc; cases hc
  · rw [if_neg hn] at hc; exact h c hc

lemma allKeep_take (l : List Char) (n : ℕ) (h : ∀ c ∈ l, keepChar c = true) :
    ∀ c ∈ l.take n, keepChar c = true :=
  fun c hc => h c (List.mem_of_mem_take hc)

lemma pyTitleGo_mem (b : Bool) (l : List Char) :
    ∀ d ∈ pyTitleGo b l, ∃ p c, c ∈ l ∧ d = titleMap p c := by
  induction l generalizing b with
  | nil => intro d hd; cases hd
  | cons c t ih =>
    intro d hd
    rw [pyTitleGo, List.mem_cons] at hd
    rcases hd with rfl | hd
    · exact ⟨b, c, List.mem_cons_self _ _, rfl⟩
    · rcases ih (isCased c) d hd with ⟨p, c2, hc2, hdc⟩
      exact ⟨p, c2, List.mem_cons_of_mem c hc2, hdc⟩

lemma pyTitleGo_wsOnly (b : Bool) (l : List Char) (h : wsOnlySpace l) :
    wsOnlySpace (pyTitleGo b l) := by
  intro d hd hs
  rcases pyTitleGo_mem b l d hd with ⟨p, c, hc, rfl⟩
  rw [isPySpace_titleMap] at hs
  have hcsp := h c hc hs
  subst hcsp
  exact titleMap_uncased p ' ' (by decide)

lemma pyTitleGo_allKeep (b : Bool) (l : List Char)
    (h : ∀ c ∈ l, keepChar c = true) : ∀ d ∈ pyTitleGo b l, keepChar d = true := by
  intro d hd
  rcases pyTitleGo_mem b l d hd with ⟨p, c, hc, rfl⟩
  rw [keepChar_titleMap]
  exact h c hc

lemma pyTitleGo_noAdj (b : Bool) (l : List Char) (h : noAdjWs l) :
    noAdjWs (pyTitleGo b l) := by
  induction l generalizing b with
  | nil => exact List.chain'_nil
  | cons c t ih =>
    cases t with
    | nil => exact List.chain'_singleton _
    | cons c2 t2 =>
      unfold noAdjWs at h ⊢
      rw [List.chain'_cons] at h
      rw [pyTitleGo, pyTitleGo, List.chain'_cons]
      refine ⟨?_, ?_⟩
      · rw [isPySpace_titleMap, isPySpace_titleMap]
        exact h.1
      · have := ih (isCased c) h.2
        rw [pyTitleGo] at this
        exact this

lemma pyTitleGo_noLead (b : Bool) (l : List Char) (h : noLeadWs l) :
    noLeadWs (pyTitleGo b l) := by
  cases l with
  | nil => intro c hc; cases hc
  | cons c t =>
    intro d hd
    rw [pyTitleGo] at hd
    rw [Option.mem_def] at hd
    injection hd with hdc
    subst hdc
    rw [isPySpace_titleMap]
    exact h c rfl

lemma pyTitleGo_noTrail (b : Bool) (l : List Char) (h : noTrailWs l) :
    noTrailWs (pyTitleGo b l) := by
  induction l generalizing b with
  | nil => intro c hc; cases hc
  | cons c t ih =>
    cases t with
    | nil =>
      intro d hd
      rw [pyTitleGo, pyTitleGo, List.getLast?_singleton, Option.mem_def] at hd
      injection hd with hdc
      subst hdc
      rw [isPySpace_titleMap]
      exact h c rfl
    | cons c2 t2 =>
      intro d hd
      rw [pyTitleGo] at hd
      have hun : pyTitleGo (isCased c) (c2 :: t2) =
          titleMap (isCased c) c2 :: pyTitleGo (isCased c2) t2 := rfl
      rw [hun, List.getLast?_cons_cons, ← hun] at hd
      have h2 : noTrailWs (c2 :: t2) := by
        intro e he
        refine h e ?_
        rw [List.getLast?_cons_cons]
        exact he
      exact ih (isCased c) h2 d hd

lemma pyTitleGo_idem (b : Bool) (l : List Char) :
    pyTitleGo b (pyTitleGo b l) = pyTitleGo b l := by
  induction l generalizing b with
  | nil => rfl
  | cons c t ih =>
    rw [pyTitleGo, pyTitleGo, titleMap_idem, isCased_titleMap, ih]

lemma pyTitleGo_take (b : Bool) (l : List Char) (n : ℕ) :
    pyTitleGo b (l.take n) = (pyTitleGo b l).take n := by
  induction l generalizing b n with
  | nil => simp [pyTitleGo]
  | cons c t ih =>
    cases n with
    | zero => rfl
    | succ m =>
      rw [List.take_succ_cons, pyTitleGo, pyTitleGo, List.take_succ_cons, ih]

lemma collapseStrip_allKeep (l : List Char) (h : ∀ c ∈ l, keepChar c = true) :
    ∀ c ∈ collapseStrip l, keepChar c = true := by
  intro c hc
  rcases collapseStrip_mem l c hc with rfl | hcl
  · decide
  · exact h c hcl

lemma rsplitSpaceHead_take (l : List Char) : ∃ n, rsplitSpaceHead l = l.take n := by
  simp only [rsplitSpaceHead]
  split_ifs with h
  · rw [dropWhile_eq_drop, List.drop_drop, List.drop_reverse, List.reverse_reverse]
    exact ⟨_, rfl⟩
  · exact ⟨l.length, (List.take_length l).symm⟩

def stateAfter : Bool → List Char → Bool
  | b, [] => b
  | _, c :: rest => stateAfter (isCased c) rest

lemma pyTitleGo_append (b : Bool) (x y : List Char) :
    pyTitleGo b (x ++ y) = pyTitleGo b x ++ pyTitleGo (stateAfter b x) y := by
  induction x generalizing b with
  | nil => rfl
  | cons c t ih =>
    rw [List.cons_append, pyTitleGo, ih]
    rfl

lemma pyTitleGo_dots (s : Bool) :
    pyTitleGo s ['.', '.', '.'] = ['.', '.', '.'] := by
  cases s <;> rfl

/-- The bundle of shape invariants enjoyed by the output of
`normalize_description`'s rewriting pipeline. -/
def descCanon (l : List Char) : Prop :=
  (∀ c ∈ l, keepChar c = true) ∧ canonWs l ∧ pyTitle l = l

lemma truncateDesc_canon (l : List Char) (h : descCanon l) :
    descCanon (truncateDesc l) := by
  unfold truncateDesc
  split_ifs with hlen
  · obtain ⟨n, hn⟩ : ∃ n, rsplitSpaceHead (l.take MAX_DESCRIPTION_LENGTH) = l.take n := by
      rcases rsplitSpaceHead_take (l.take MAX_DESCRIPTION_LENGTH) with ⟨m, hm⟩
      exact ⟨min m MAX_DESCRIPTION_LENGTH, by rw [hm, List.take_take]⟩
    rw [hn]
    obtain ⟨hk, hcan, hti⟩ := h
    refine ⟨?_, ⟨?_, ?_, ?_, ?_⟩, ?_⟩
    · intro c hc
      rcases List.mem_append.mp hc with hc | hc
      · exact allKeep_take l n hk c hc
      · have hcd : c = '.' := by simpa using hc
        subst hcd
        decide
    · intro c hc hs
      rcases List.mem_append.mp hc with hc | hc
      · exact wsOnly_take l n hcan.1 c hc hs
      · have hcd : c = '.' := by simpa using hc
        subst hcd
        exact absurd hs (by decide)
    · unfold noAdjWs
      rw [List.chain'_append]
      refine ⟨noAdj_take l n hcan.2.1, ?_, ?_⟩
      · rw [List.chain'_cons, List.chain'_cons]
        exact ⟨by decide, by decide, List.chain'_singleton _⟩
      · intro x _ y hy
        rw [List.head?_cons, Option.mem_def] at hy
        injection hy with hy
        subst hy
        intro hxy
        exact absurd hxy.2 (by decide)
    · intro c hc
      rw [List.head?_append] at hc
      rcases hu : (l.take n).head? with _ | c0
      · rw [hu] at hc
        have hc2 : c ∈ (['.', '.', '.'] : List Char).head? := hc
        rw [List.head?_cons, Option.mem_def] at hc2
        injection hc2 with hc2
        subst hc2
        decide
      · rw [hu] at hc
        have hc2 : c ∈ some c0 := hc
        rw [Option.mem_def] at hc2
        injection hc2 with hc2
        subst hc2
        exact noLead_take l n hcan.2.2.1 c0 hu
    · intro c hc
      rw [List.getLast?_append_of_ne_nil _ (by simp)] at hc
      rw [show (['.', '.', '.'] : List Char).getLast? = some '.' from rfl,
          Option.mem_def] at hc
      injection hc with hc
      subst hc
      decide
    · unfold pyTitle
      rw [pyTitleGo_append, pyTitleGo_dots, pyTitleGo_take]
      unfold pyTitle at hti
      rw [hti]
  · exact h

lemma normalizeDescCore_canon (l : List Char) : descCanon (normalizeDescCore l) := by
  unfold normalizeDescCore
  apply truncateDesc_canon
  have h1k : ∀ c ∈ collapseStrip (l.filter keepChar), keepChar c = true :=
    collapseStrip_allKeep _ (fun c hc => (List.mem_filter.mp hc).2)
  have h1c : canonWs (collapseStrip (l.filter keepChar)) := collapseStrip_canon _
  obtain ⟨n, hn⟩ := stripTrailingCode_take (collapseStrip (l.filter keepChar))
  have h2t : noTrailWs (stripTrailingCode (collapseStrip (l.filter keepChar))) :=
    stripTrailingCode_noTrail _ h1c.2.2.2
  rw [hn] at h2t ⊢
  refine ⟨?_, ⟨?_, ?_, ?_, ?_⟩, ?_⟩
  · exact pyTitleGo_allKeep false _ (allKeep_take _ n h1k)
  · exact pyTitleGo_wsOnly false _ (wsOnly_take _ n h1c.1)
  · exact pyTitleGo_noAdj false _ (noAdj_take _ n h1c.2.1)
  · exact pyTitleGo_noLead false _ (noLead_take _ n h1c.2.2.1)
  · exact pyTitleGo_noTrail false _ h2t
  · exact pyTitleGo_idem false _

lemma normalizeDescCore_fixed (l : List Char) (hk : ∀ c ∈ l, keepChar c = true)
    (hc : canonWs l) (ht : pyTitle l = l) (hs : stripTrailingCode l = l)
    (hlen : l.length ≤ MAX_DESCRIPTION_LENGTH) : normalizeDescCore l = l := by
  unfold normalizeDescCore
  rw [List.filter_eq_self.mpr hk, collapseStrip_fixed l hc, hs, ht]
  unfold truncateDesc
  rw [if_neg (not_lt.mpr hlen)]

lemma truncateDesc_eq_nil (w : List Char) (h : truncateDesc w = []) : w = [] := by
  unfold truncateDesc at h
  split_ifs at h
  · exact absurd (List.append_eq_nil.mp h).2 (by decide)
  · exact h

lemma pyTitleGo_eq_nil (b : Bool) (v : List Char) (h : pyTitleGo b v = []) :
    v = [] := by
  cases v with
  | nil => rfl
  | cons c t =>
    rw [pyTitleGo] at h
    exact absurd h (List.cons_ne_nil _ _)

set_option maxHeartbeats 1000000 in
lemma normalize_description_renormal (y : String)
    (hlen : (normalize_description y).data.length ≤ MAX_DESCRIPTION_LENGTH)
    (hstr : stripTrailingCode (normalize_description y).data =
      (normalize_description y).data) :
    normalize_description (normalize_description y) = normalize_description y := by
  by_cases hre : (normalizeDescCore y.data).isEmpty = true
  · have hz : normalize_description y = String.mk (y.data.take 50) := by
      unfold normalize_description
      rw [if_pos hre]
    have hcore : normalizeDescCore y.data = [] := List.isEmpty_iff.mp hre
    have hall : ∀ c ∈ y.data.filter keepChar, isPySpace c = true := by
      apply collapseStrip_allspace_of_nil
      apply stripTrailingCode_nil _ (collapseStrip_canon _).2.2.1
      apply pyTitleGo_eq_nil false
      exact truncateDesc_eq_nil _ hcore
    have hz2 : collapseStrip ((y.data.take 50).filter keepChar) = [] := by
      apply collapseStrip_nil_of_allspace
      intro c hc
      rcases List.mem_filter.mp hc with ⟨hcm, hck⟩
      exact hall c (List.mem_filter.mpr ⟨List.mem_of_mem_take hcm, hck⟩)
    have hcore2 : normalizeDescCore (y.data.take 50) = [] := by
      unfold normalizeDescCore
      rw [hz2]
      rfl
    rw [hz]
    unfold normalize_description
    show (if (normalizeDescCore (y.data.take 50)).isEmpty then
        String.mk ((y.data.take 50).take 50)
      else String.mk (normalizeDescCore (y.data.take 50))) = String.mk (y.data.take 50)
    rw [hcore2]
    show String.mk ((y.data.take 50).take 50) = String.mk (y.data.take 50)
    rw [List.take_take, min_self]
  · have hz : normalize_description y = String.mk (normalizeDescCore y.data) := by
      unfold normalize_description
      rw [if_neg hre]
    rw [hz] at hlen hstr ⊢
    have hcanon := normalizeDescCore_canon y.data
    have hfix : normalizeDescCore (normalizeDescCore y.data) = normalizeDescCore y.data :=
      normalizeDescCore_fixed _ hcanon.1 hcanon.2.1 hcanon.2.2 hstr hlen
    unfold normalize_description
    show (if (normalizeDescCore (normalizeDescCore y.data)).isEmpty then
        String.mk ((normalizeDescCore y.data).take 50)
      else String.mk (normalizeDescCore (normalizeDescCore y.data))) =
      String.mk (normalizeDescCore y.data)
    rw [hfix, if_neg hre]

lemma toNat_digitChar (n : ℕ) (h : n < 10) : (digitChar n).toNat = 48 + n :=
  toNat_ofNat_valid (48 + n) (by omega)

lemma isAsciiDigit_digitChar (n : ℕ) (h : n < 10) :
    isAsciiDigit (digitChar n) = true := by
  unfold isAsciiDigit
  rw [toNat_digitChar n h]
  rw [Bool.and_eq_true, decide_eq_true_eq, decide_eq_true_eq]
  omega

lemma charToDigit_digitChar (n : ℕ) (h : n < 10) :
    charToDigit (digitChar n) = n := by
  unfold charToDigit
  rw [toNat_digitChar n h]
  omega

lemma isPySpace_of_digit_range (c : Char) (h1 : 48 ≤ c.toNat) (h2 : c.toNat ≤ 57) :
    isPySpace c = false := by
  unfold isPySpace
  simp only [Bool.or_eq_false_iff, decide_eq_false_iff_not]
  refine ⟨⟨⟨⟨⟨?_, ?_⟩, ?_⟩, ?_⟩, ?_⟩, ?_⟩ <;> intro heq <;> subst heq <;>
    revert h1 h2 <;> decide

lemma isPySpace_digitChar (n : ℕ) (h : n < 10) :
    isPySpace (digitChar n) = false := by
  have ht := toNat_digitChar n h
  exact isPySpace_of_digit_range _ (by omega) (by omega)

lemma daysInMonth_le (y m : ℕ) : daysInMonth y m ≤ 31 := by
  unfold daysInMonth
  split_ifs <;> omega

lemma fourDigitVal_digits (y : ℕ) (h : y < 10000) :
    fourDigitVal (digitChar (y / 1000 % 10)) (digitChar (y / 100 % 10))
      (digitChar (y / 10 % 10)) (digitChar (y % 10)) = some y := by
  unfold fourDigitVal
  rw [isAsciiDigit_digitChar _ (Nat.mod_lt _ (by omega)),
      isAsciiDigit_digitChar _ (Nat.mod_lt _ (by omega)),
      isAsciiDigit_digitChar _ (Nat.mod_lt _ (by omega)),
      isAsciiDigit_digitChar _ (Nat.mod_lt _ (by omega))]
  rw [if_pos (show (true && true && true && true) = true from rfl)]
  rw [charToDigit_digitChar _ (Nat.mod_lt _ (by omega)),
      charToDigit_digitChar _ (Nat.mod_lt _ (by omega)),
      charToDigit_digitChar _ (Nat.mod_lt _ (by omega)),
      charToDigit_digitChar _ (Nat.mod_lt _ (by omega))]
  congr 1
  omega

lemma twoDigitVal_digits (m : ℕ) (h : m < 100) :
    twoDigitVal (digitChar (m / 10 % 10)) (digitChar (m % 10)) = some m := by
  unfold twoDigitVal
  rw [isAsciiDigit_digitChar _ (Nat.mod_lt _ (by omega)),
      isAsciiDigit_digitChar _ (Nat.mod_lt _ (by omega))]
  rw [if_pos (show (true && true) = true from rfl)]
  rw [charToDigit_digitChar _ (Nat.mod_lt _ (by omega)),
      charToDigit_digitChar _ (Nat.mod_lt _ (by omega))]
  congr 1
  omega

lemma parseMDTail_digits (m dd : ℕ) (hm : m < 100) (hd : dd < 100) :
    parseMDTail '-' [digitChar (m / 10 % 10), digitChar (m % 10), '-',
      digitChar (dd / 10 % 10), digitChar (dd % 10)] = some (m, dd) := by
  unfold parseMDTail
  dsimp only
  rw [if_pos rfl]
  rw [show ((do
      let a ← twoDigitVal (digitChar (m / 10 % 10)) (digitChar (m % 10))
      let b ← twoDigitVal (digitChar (dd / 10 % 10)) (digitChar (dd % 10))
      pure (a, b)) : Option (ℕ × ℕ)) =
    (twoDigitVal (digitChar (m / 10 % 10)) (digitChar (m % 10))).bind fun a =>
      (twoDigitVal (digitChar (dd / 10 % 10)) (digitChar (dd % 10))).bind fun b =>
        some (a, b) from rfl]
  rw [twoDigitVal_digits m hm, Option.some_bind, twoDigitVal_digits dd hd,
      Option.some_bind]

lemma parseYMD_iso (d : PyDate) (h : validDate d = true) :
    parseYMD '-' (isoChars d) = some d := by
  obtain ⟨y, m, dd⟩ := d
  have hval := h
  unfold validDate at h
  simp only [Bool.and_eq_true, decide_eq_true_eq] at h
  obtain ⟨⟨⟨⟨⟨h1, h2⟩, h3⟩, h4⟩, h5⟩, h6⟩ := h
  have hd31 : dd ≤ 31 := le_trans h6 (daysInMonth_le y m)
  have hiso : isoChars ⟨y, m, dd⟩ =
      digitChar (y / 1000 % 10) :: digitChar (y / 100 % 10) ::
      digitChar (y / 10 % 10) :: digitChar (y % 10) :: '-' ::
      [digitChar (m / 10 % 10), digitChar (m % 10), '-',
       digitChar (dd / 10 % 10), digitChar (dd % 10)] := rfl
  rw [hiso]
  unfold parseYMD
  dsimp only
  rw [if_pos rfl]
  rw [show ((do
      let yv ← fourDigitVal (digitChar (y / 1000 % 10)) (digitChar (y / 100 % 10))
        (digitChar (y / 10 % 10)) (digitChar (y % 10))
      let (mv, dv) ← parseMDTail '-' [digitChar (m / 10 % 10), digitChar (m % 10), '-',
        digitChar (dd / 10 % 10), digitChar (dd % 10)]
      mkValidDate yv mv dv) : Option PyDate) =
    (fourDigitVal (digitChar (y / 1000 % 10)) (digitChar (y / 100 % 10))
        (digitChar (y / 10 % 10)) (digitChar (y % 10))).bind fun yv =>
      (parseMDTail '-' [digitChar (m / 10 % 10), digitChar (m % 10), '-',
        digitChar (dd / 10 % 10), digitChar (dd % 10)]).bind fun p =>
        mkValidDate yv p.1 p.2 from rfl]
  rw [fourDigitVal_digits y (by omega), Option.some_bind,
      parseMDTail_digits m dd (by omega) (by omega), Option.some_bind]
  unfold mkValidDate
  rw [if_pos (by simp only [Bool.and_eq_true, decide_eq_true_eq]; omega)]
  rw [if_pos hval]

end WsCanon

lemma pyStripChars_iso (d : PyDate) :
    pyStripChars (isoChars d) = isoChars d := by
  obtain ⟨y, m, dd⟩ := d
  apply pyStrip_fixed
  · intro c hc
    have hh : (isoChars ⟨y, m, dd⟩).head? = some (digitChar (y / 1000 % 10)) := rfl
    rw [hh, Option.mem_def] at hc
    injection hc with hc
    subst hc
    exact isPySpace_digitChar _ (Nat.mod_lt _ (by omega))
  · intro c hc
    have hh : (isoChars ⟨y, m, dd⟩).getLast? = some (digitChar (dd % 10)) := rfl
    rw [hh, Option.mem_def] at hc
    injection hc with hc
    subst hc
    exact isPySpace_digitChar _ (Nat.mod_lt _ (by omega))

lemma normalizeDateCore_iso (E : Extern) (d : PyDate) (h : validDate d = true) :
    normalizeDateCore E (isoString d) = some (isoString d) := by
  unfold normalizeDateCore
  have ht : (pyStrip (isoString d)).data = isoChars d := by
    show pyStripChars (isoChars d) = isoChars d
    exact pyStripChars_iso d
  rw [ht]
  dsimp only
  rw [parseYMD_iso d h]
  rfl

lemma normalize_date_iso (E : Extern) (raw : Option String) (d : PyDate)
    (h : validDate d = true) :
    normalize_date E (isoString d) raw = some (isoString d) := by
  unfold normalize_date
  rw [normalizeDateCore_iso E d h]
  rfl

/-- C7 (amended): normalization idempotence holds for dates and holds for
descriptions only under two extra side conditions. (1) `normalize_date` on a
string that is the ISO form `YYYY-MM-DD` of a constructible `datetime.date`
returns it unchanged, whatever the raw-fallback argument and the external
`dateutil` behaviour. (2) Re-applying `normalize_description` to one of its
outputs is a no-op provided that output is at most 100 characters long and is
a fixed point of the trailing-reference-code removal `re.sub(r'\s+\d\x7b5,\x7d$', '', s)`;
without those side conditions the description half is false (see the
counterexample). -/
theorem C7_normalization_idempotence :
    (∀ (E : Extern) (raw : Option String) (d : PyDate), validDate d = true →
      normalize_date E (isoString d) raw = some (isoString d)) ∧
    (∀ y : String,
      (normalize_description y).data.length ≤ MAX_DESCRIPTION_LENGTH →
      stripTrailingCode (normalize_description y).data =
        (normalize_description y).data →
      normalize_description (normalize_description y) = normalize_description y) :=
  ⟨fun E raw d h => normalize_date_iso E raw d h,
   fun y hlen hstr => normalize_description_renormal y hlen hstr⟩

/-- C7 counterexample to the unqualified claim: `normalize_description` is
not idempotent. On "a 12345 67890" the first pass strips only the last
trailing digit block, giving "A 12345"; a second pass strips again, giving
"A". -/
theorem C7_normalization_idempotence_counterexample :
    normalize_description (normalize_description "a 12345 67890") ≠
      normalize_description "a 12345 67890" := by
  decide

/-- Witness for C7: the concrete date 2025-11-10 round-trips through
`normalize_date`, and the already-normalized description "Padaria Pao"
(output of normalizing "PADARIA PAO") satisfies both side conditions and is
a fixed point. -/
theorem C7_normalization_idempotence_witness :
    validDate ⟨2025, 11, 10⟩ = true ∧
    normalize_date externTrivial (isoString ⟨2025, 11, 10⟩) none =
      some (isoString ⟨2025, 11, 10⟩) ∧
    normalize_description (normalize_description "PADARIA PAO") =
      normalize_description "PADARIA PAO" :=
  ⟨by decide,
   C7_normalization_idempotence.1 externTrivial none ⟨2025, 11, 10⟩ (by decide),
   C7_normalization_idempotence.2 "PADARIA PAO" (by decide) (by decide)⟩
